import Mathlib

/-!
Verification development for the Canvas-to-OpenEdX course converter
(`mitx-canvas-tools`).  The Python sources are shallowly embedded:

* Python strings are modelled as `List Char` (abbreviated `Str`); string
  methods (`lower`, `strip`, slicing, `re.sub` of the concrete patterns
  appearing in the sources) are implemented character by character.
  `str.lower` is modelled on ASCII letters only.
* Python `set` registries are modelled as lists consulted by membership;
  `dict` is modelled as an association list where the most recent insertion
  wins (`List.lookup` on a cons-updated list).
* Python floats are modelled as exact rationals (`ℚ`); IEEE rounding is out
  of scope of the claims treated here.
* Filesystem access performed by the parsers is modelled as an environment
  record of accessor functions: an accessor returning `none` models a file
  that is absent (or whose parse yields nothing), exactly the conditions the
  sources branch on.

Each definition carries a comment naming the source file and function it
embeds.
-/

abbrev Str := List Char

/-- Shorthand turning a Lean string literal into the `List Char` model. -/
def S (s : String) : Str := s.data

/-- ASCII lower-casing, modelling `str.lower` (`url_name_generator.py` line 29)
on the ASCII range; non-ASCII case folding is out of scope. -/
def pyLower (c : Char) : Char :=
  if 'A' ≤ c ∧ c ≤ 'Z' then Char.ofNat (c.toNat + 32) else c

/-- The whitespace characters stripped by Python's `str.strip()`. -/
def pyIsSpace (c : Char) : Bool :=
  c = ' ' ∨ c = '\t' ∨ c = '\n' ∨ c = '\r' ∨ c = Char.ofNat 11 ∨ c = Char.ofNat 12

/-- `str.strip()` (both ends, whitespace). -/
def pyStripWs (s : Str) : Str :=
  ((s.dropWhile pyIsSpace).reverse.dropWhile pyIsSpace).reverse

/-- `str.strip('_')`. -/
def pyStripUnd (s : Str) : Str :=
  ((s.dropWhile (· = '_')).reverse.dropWhile (· = '_')).reverse

/-- `str.rstrip('_')`. -/
def pyRstripUnd (s : Str) : Str :=
  (s.reverse.dropWhile (· = '_')).reverse

/-- Python slicing `s[:n]` with a possibly negative bound
(`url_name_generator.py` line 49 computes `max_length - len(suffix)`, which can
be negative): a negative bound counts from the end, clamped at 0. -/
def pyTake (s : Str) (n : Int) : Str :=
  if 0 ≤ n then s.take n.toNat else s.take ((s.length : Int) + n).toNat

/-- One character of `re.sub(r'[^a-z0-9_-]', '_', name)`
(`url_name_generator.py` line 32). -/
def sanitizeChar (c : Char) : Char :=
  if ('a' ≤ c ∧ c ≤ 'z') ∨ ('0' ≤ c ∧ c ≤ '9') ∨ c = '_' ∨ c = '-' then c else '_'

/-- `re.sub(r'_+', '_', name)` (`url_name_generator.py` line 35): drop an
underscore when it is immediately followed by another, collapsing runs. -/
def collapseUnd : Str → Str
  | [] => []
  | [c] => [c]
  | c :: d :: rest =>
    if c = '_' ∧ d = '_' then collapseUnd (d :: rest)
    else c :: collapseUnd (d :: rest)

/-- Decimal digit character for a digit value (`0`–`9`). -/
def digitCh (d : Nat) : Char :=
  match d with
  | 0 => '0' | 1 => '1' | 2 => '2' | 3 => '3' | 4 => '4'
  | 5 => '5' | 6 => '6' | 7 => '7' | 8 => '8' | _ => '9'

/-- Little-endian decimal digits of `n`, with structural fuel so that the
definition evaluates by `decide`/`rfl`.  Any `fuel ≥ n` yields the digits. -/
def natDigitsAux : Nat → Nat → Str
  | 0, _ => []
  | _ + 1, 0 => []
  | fuel + 1, n + 1 => digitCh ((n + 1) % 10) :: natDigitsAux fuel ((n + 1) / 10)

/-- Python `str(n)` for a natural number, as a `List Char`. -/
def pyNatStr (n : Nat) : Str :=
  if n = 0 then ['0'] else (natDigitsAux n n).reverse

namespace URLNameGenerator

/-- Lines 28–42 of `url_name_generator.py` (`generate` before the uniqueness
loop): lower-case and strip the title, replace characters outside
`[a-z0-9_-]` with `_`, collapse repeated `_`, strip leading/trailing `_`, and
truncate to `maxLength` (right-stripping `_` after the cut). -/
def normalize (title : Str) (maxLength : Nat) : Str :=
  let name := pyStripWs (title.map pyLower)
  let name := name.map sanitizeChar
  let name := collapseUnd name
  let name := pyStripUnd name
  if maxLength < name.length then pyRstripUnd (name.take maxLength) else name

/-- The candidate token tried at collision counter `k`
(`url_name_generator.py` lines 48–50): the suffix `_k` appended to the
original name re-truncated to `max_length - len(suffix)` (a Python slice,
possibly with a negative bound). -/
def candidate (orig : Str) (maxLength : Nat) (k : Nat) : Str :=
  let suffix := '_' :: pyNatStr k
  pyTake orig ((maxLength : Int) - (suffix.length : Int)) ++ suffix

/-- The `while name in self.used_names` loop of `generate`
(`url_name_generator.py` lines 45–51), unrolled with fuel.  With enough fuel
(`used.length + 1` suffices, see `exists_free_candidate`) the loop always finds a
free candidate; exhausted fuel returns `[]` (unreachable). -/
def genLoop (orig : Str) (maxLength : Nat) (used : List Str) :
    Nat → Nat → Str
  | _, 0 => []
  | counter, fuel + 1 =>
    let cand := candidate orig maxLength counter
    if cand ∈ used then genLoop orig maxLength used (counter + 1) fuel else cand

/-- `URLNameGenerator.generate` (`url_name_generator.py` lines 17–54).  The
registry `self.used_names` is threaded explicitly: the result is the returned
token together with the updated registry (the token is added before
returning, line 53). -/
def generate (used : List Str) (title : Str) (maxLength : Nat) : Str × List Str :=
  let name := normalize title maxLength
  if name ∈ used then
    let r := genLoop name maxLength used 1 (used.length + 1)
    (r, r :: used)
  else (name, name :: used)

end URLNameGenerator

/-! ## QTI quiz parsing (`src/parsers/qti_parser.py`) — the fragments the
claims depend on.  XML access details (namespaced-then-bare lookups) are below
the level of the claims about these functions; parsed values appear directly. -/

/-- A parsed answer choice (`qti_parser.py` `_parse_item`, lines 257–272):
`ident` attributes may be missing (`none`); choices with empty text are
skipped by the parser but converter claims quantify over arbitrary records. -/
structure QChoice where
  id : Option Str
  text : Str
deriving DecidableEq, Repr

/-- One sub-blank of a matching / fill-in-multiple-blanks / dropdowns
question (`qti_parser.py` lines 366–371). -/
structure QBlank where
  blank_id : Str
  prompt : Str
  choices : List QChoice
  correct_answer : Option Str
deriving DecidableEq, Repr

/-- A parsed question record (`qti_parser.py` `_parse_item`, lines 189–205).
`correct_answers` holds choice identifiers (or, for numerical questions, the
decimal rendering of the parsed values); numeric values carried as floats in
Python (`tolerance`, `answer_tolerance`) are modelled as exact rationals with
their attribute rendering kept as the string field where serialized. -/
structure Question where
  identifier : Str
  title : Str
  qtype : Str
  question_text : Str
  choices : List QChoice
  correct_answers : List Str
  points : ℚ
  tolerance : Option Str
  blanks : List QBlank
  formula : Option Str
  sample_vars : List (Str × Str)
  answer_tolerance : Option Str
deriving DecidableEq, Repr

/-- The numeric core of `_parse_numerical_answers` (`qti_parser.py` lines
613–638), after `_extract_numerical_values` has produced the exact values
`cas` and the closed ranges `ranges` (floats modelled as `ℚ`): take the first
range that is not `(0,0)`; prefer the first exact value inside it, otherwise
the midpoint; the tolerance is half the range width; the exact-value list is
replaced by the computed answer only when it was empty. -/
def parseNumericalFinalize (cas : List ℚ) (ranges : List (ℚ × ℚ)) :
    List ℚ × Option ℚ :=
  match ranges.find? (fun r => !(r.1 = 0 ∧ r.2 = 0)) with
  | none => (cas, none)
  | some (lo, hi) =>
    let answer :=
      match cas.find? (fun a => lo ≤ a ∧ a ≤ hi) with
      | some a => a
      | none => (lo + hi) / 2
    ((if cas.isEmpty then [answer] else cas), some ((hi - lo) / 2))

/-- The answer/tolerance pair serialized by `_convert_numerical`
(`qti_to_capa.py` lines 187–210) from the parsed state: `answers[0]` becomes
the `answer` attribute (or `none` for the no-answer placeholder body), with
the stored tolerance as the optional `responseparam`. -/
def emitNumerical (st : List ℚ × Option ℚ) : Option (ℚ × Option ℚ) :=
  st.1.head?.map (fun a => (a, st.2))

/-- `_load_question_bank` (`qti_parser.py` lines 123–163).  The bank file and
the per-item `_parse_item` outcomes are supplied as data: `none` for the
whole bank models a missing file, a missing `objectbank` element, or a parse
exception (all return `[]`); each list entry is the `_parse_item` result for
one raw `item` element in file order (`none` when the item yields no
question).  The code takes the first `n` raw items (`items[:num_questions]`)
and only then parses and filters. -/
def loadQuestionBank (bank : Option (List (Option Question))) (n : Nat) :
    List Question :=
  match bank with
  | none => []
  | some items => (items.take n).filterMap id

/-- What §4.3 of the specification asks of the bank loader, stated from the
spec's words for comparison ("parses every item inside ... and takes the
first N parsed questions"): parse all items, then take the first `n`
questions that parsed. -/
def loadQuestionBankSpec (bank : Option (List (Option Question))) (n : Nat) :
    List Question :=
  match bank with
  | none => []
  | some items => (items.filterMap id).take n

/-- One `section` element scanned by `_load_banks_from_assessment`
(`qti_parser.py` lines 94–121): `none` when the section has no `selection`
with both a `sourcebank_ref` and a `selection_number`, otherwise the bank
identifier and the selected count. -/
abbrev BankSelection := Option (Str × Nat)

/-- `_load_banks_from_assessment` (`qti_parser.py` lines 94–121): for each
section carrying a bank selection, load the bank and extend the quiz's
question list in order. -/
def loadBanksFromAssessment (banks : Str → Option (List (Option Question)))
    (sections : List BankSelection) (questions : List Question) :
    List Question :=
  sections.foldl
    (fun qs sec =>
      match sec with
      | none => qs
      | some (bankId, n) => qs ++ loadQuestionBank (banks bankId) n)
    questions

/-! ## QTI → CAPA conversion (`src/converters/qti_to_capa.py`).

The `xml.etree.ElementTree` documents built by the converter are modelled as
trees; attributes are kept in insertion order (Python keyword/`set` order).
`_prettify_xml` / `minidom` serialization is a deterministic function of the
tree, so equal trees serialize to equal strings; claims about serialized
bodies are stated on the trees. -/

/-- An `ElementTree` element: tag, attributes in insertion order, the
element's text, and its children. -/
inductive XNode where
  | elem (tag : Str) (attrs : List (Str × Str)) (text : Option Str)
      (children : List XNode)

/-- A converted question body: either a CAPA/ORA XML document or, for
text-only questions, a raw HTML string (`qti_to_capa.py` lines 511–517). -/
inductive QBody where
  | tree (x : XNode)
  | raw (s : Str)

/-- Truthiness of an optional string field (`None` and `''` are falsy). -/
def pyTruthy : Option Str → Bool
  | some s => s ≠ []
  | none => false

/-- Does `pat` occur as a prefix of `s`? -/
def leadsWith : Str → Str → Bool
  | [], _ => true
  | _ :: _, [] => false
  | p :: ps, c :: cs => p = c && leadsWith ps cs

/-- Matcher for the regex `<TAG[^>]*>` at the head of `s` (no word boundary
after `TAG`, exactly like the source patterns `<div[^>]*>`, `<span[^>]*>`,
`<p[^>]*>`, so e.g. `<pre …>` is matched by the `p` pattern): on success,
returns the remainder after the closing `>`. -/
def matchTagOpen (tag : Str) (s : Str) : Option Str :=
  if leadsWith ('<' :: tag) s then
    match (s.drop (tag.length + 1)).dropWhile (· ≠ '>') with
    | '>' :: r => some r
    | _ => none
  else none

/-- Left-to-right, non-overlapping removal of `<TAG[^>]*>` occurrences
(`re.sub(r'<TAG[^>]*>', '', text)`); fuel is the input length. -/
def removeTagOpenAux (tag : Str) : Nat → Str → Str
  | _, [] => []
  | 0, s => s
  | fuel + 1, c :: rest =>
    match matchTagOpen tag (c :: rest) with
    | some r => removeTagOpenAux tag fuel r
    | none => c :: removeTagOpenAux tag fuel rest

/-- `re.sub(r'<TAG[^>]*>', '', s)`. -/
def removeTagOpen (tag : Str) (s : Str) : Str :=
  removeTagOpenAux tag s.length s

/-- Left-to-right, non-overlapping replacement of a literal pattern
(`re.sub` with a literal regex such as `</div>` or `</p>`). -/
def replaceLitAux (lit repl : Str) : Nat → Str → Str
  | _, [] => []
  | 0, s => s
  | fuel + 1, c :: rest =>
    if leadsWith lit (c :: rest) then
      repl ++ replaceLitAux lit repl fuel ((c :: rest).drop lit.length)
    else c :: replaceLitAux lit repl fuel rest

/-- `re.sub(literal, repl, s)` for a non-empty literal pattern. -/
def replaceLit (lit repl s : Str) : Str :=
  replaceLitAux lit repl s.length s

/-- ASCII model of the regex class `\w`. -/
def wordChar (c : Char) : Bool :=
  ('a' ≤ c ∧ c ≤ 'z') ∨ ('A' ≤ c ∧ c ≤ 'Z') ∨ ('0' ≤ c ∧ c ≤ '9') ∨ c = '_'

/-- The allow-list of `_strip_html_tags` (`qti_to_capa.py` lines 556–564). -/
def preserveTags : List Str :=
  [S "strong", S "b", S "em", S "i", S "u",
   S "ul", S "ol", S "li",
   S "table", S "thead", S "tbody", S "tr", S "td", S "th",
   S "img", S "br", S "hr",
   S "sub", S "sup",
   S "pre", S "code",
   S "a"]

/-- The keep-or-drop decision of `remove_unknown_tags` (`qti_to_capa.py`
lines 577–585) applied to the text strictly between `<` and `>`: match
`/?(\w+)`, lower-case the name, and keep the tag only when the name is on
the allow-list. -/
def tagKept (mid : Str) : Bool :=
  let core := match mid with
    | '/' :: rest => rest
    | _ => mid
  let name := core.takeWhile wordChar
  name ≠ [] && (name.map pyLower) ∈ preserveTags

/-- `re.sub(r'<[^>]+>', remove_unknown_tags, text)` (`qti_to_capa.py` line
587): scan for `<…>` tokens (at least one non-`>` character inside) and keep
or drop each whole token. -/
def subTagsAux : Nat → Str → Str
  | _, [] => []
  | 0, s => s
  | fuel + 1, c :: rest =>
    if c = '<' then
      let mid := rest.takeWhile (· ≠ '>')
      match rest.drop mid.length with
      | '>' :: r =>
        if mid = [] then c :: subTagsAux fuel rest
        else if tagKept mid then ('<' :: mid ++ '>' :: subTagsAux fuel r)
        else subTagsAux fuel r
      | _ => c :: subTagsAux fuel rest
    else c :: subTagsAux fuel rest

/-- See `subTagsAux`. -/
def subTags (s : Str) : Str := subTagsAux s.length s

/-- `re.sub(r'\n{3,}', '\n\n', text)` (`qti_to_capa.py` line 590). -/
def collapseNlAux : Nat → Str → Str
  | _, [] => []
  | 0, s => s
  | fuel + 1, c :: rest =>
    if c = '\n' then
      let run := rest.takeWhile (· = '\n')
      (if run.length + 1 ≥ 3 then ['\n', '\n'] else List.replicate (run.length + 1) '\n')
        ++ collapseNlAux fuel (rest.drop run.length)
    else c :: collapseNlAux fuel rest

/-- See `collapseNlAux`. -/
def collapseNl (s : Str) : Str := collapseNlAux s.length s

namespace QTIToCapaConverter

/-- `_strip_html_tags` (`qti_to_capa.py` lines 542–593): drop `div`/`span`
open+close tags, turn `</p>` into a newline, drop `<p…>` opens, then remove
every remaining tag whose name is not on the allow-list (keeping inner text),
collapse runs of three or more newlines, and strip surrounding whitespace. -/
def stripHtmlTags (html : Str) : Str :=
  if html = [] then []
  else
    let t := removeTagOpen (S "div") html
    let t := replaceLit (S "</div>") [] t
    let t := removeTagOpen (S "span") t
    let t := replaceLit (S "</span>") [] t
    let t := removeTagOpen (S "p") t
    let t := replaceLit (S "</p>") ['\n'] t
    let t := subTags t
    let t := collapseNl t
    pyStripWs t

/-- The optional leading `<p>` carrying the stripped question text, built by
every branch that starts with `if question['question_text']:`. -/
def questionTextNodes (question : Question) : List XNode :=
  if question.question_text ≠ [] then
    [XNode.elem (S "p") [] (some (stripHtmlTags question.question_text)) []]
  else []

/-- The correctness flag attached to one choice: `choice['id'] in
correct_ids` (a missing `ident` is never in the list, which holds only
strings). -/
def choiceIsCorrect (correct_ids : List Str) (choice : QChoice) : Bool :=
  match choice.id with
  | some i => i ∈ correct_ids
  | none => false

/-- One `<choice correct=…>` element. -/
def choiceNode (correct_ids : List Str) (choice : QChoice) : XNode :=
  XNode.elem (S "choice")
    [(S "correct", if choiceIsCorrect correct_ids choice then S "true" else S "false")]
    (some choice.text) []

/-- `_convert_multiple_choice` (`qti_to_capa.py` lines 62–88). -/
def convertMultipleChoice (question : Question) : XNode :=
  let correct_ids := question.correct_answers
  let choice_group :=
    XNode.elem (S "choicegroup") [(S "type", S "MultipleChoice")] none
      (question.choices.map (choiceNode correct_ids))
  let mc_response := XNode.elem (S "multiplechoiceresponse") [] none [choice_group]
  XNode.elem (S "problem") [] none (questionTextNodes question ++ [mc_response])

/-- `_convert_true_false` (`qti_to_capa.py` lines 90–116); the body of the
method is character-for-character that of `_convert_multiple_choice`. -/
def convertTrueFalse (question : Question) : XNode :=
  let correct_ids := question.correct_answers
  let choice_group :=
    XNode.elem (S "choicegroup") [(S "type", S "MultipleChoice")] none
      (question.choices.map (choiceNode correct_ids))
  let mc_response := XNode.elem (S "multiplechoiceresponse") [] none [choice_group]
  XNode.elem (S "problem") [] none (questionTextNodes question ++ [mc_response])

/-- `_convert_multiple_response` (`qti_to_capa.py` lines 118–144). -/
def convertMultipleResponse (question : Question) : XNode :=
  let correct_ids := question.correct_answers
  let checkboxgroup :=
    XNode.elem (S "checkboxgroup") [] none
      (question.choices.map (choiceNode correct_ids))
  let choice_response := XNode.elem (S "choiceresponse") [] none [checkboxgroup]
  XNode.elem (S "problem") [] none (questionTextNodes question ++ [choice_response])

/-- One rubric `<option>` of the generated ORA rubric. -/
def oraOption (pts : Str) (label explanation : Str) : XNode :=
  XNode.elem (S "option") [(S "points", pts)] none
    [XNode.elem (S "name") [] (some label) [],
     XNode.elem (S "label") [] (some label) [],
     XNode.elem (S "explanation") [] (some explanation) []]

/-- `_convert_essay_ora` (`qti_to_capa.py` lines 217–293): the generated
Open Response Assessment document with its fixed four-level rubric.
(`question.get('question_text', …)` / `question.get('title', …)` fall back
only when the key is absent; parsed records always carry both keys, so the
fields are used directly.) -/
def convertEssayOra (question : Question) : XNode :=
  let prompt_text := stripHtmlTags question.question_text
  let title := question.title
  XNode.elem (S "openassessment")
    [(S "url_name", question.identifier.take 32),
     (S "submission_start", S "2001-01-01T00:00"),
     (S "submission_due", S "2099-01-01T00:00"),
     (S "text_response", S "required"),
     (S "text_response_editor", S "text"),
     (S "allow_multiple_files", S "False"),
     (S "allow_latex", S "False"),
     (S "allow_learner_resubmissions", S "False"),
     (S "display_name", title),
     (S "prompts_type", S "text"),
     (S "teams_enabled", S "False"),
     (S "show_rubric_during_response", S "False")] none
    [XNode.elem (S "title") [] (some title) [],
     XNode.elem (S "assessments") [] none
       [XNode.elem (S "assessment")
         [(S "name", S "staff-assessment"),
          (S "start", S "2001-01-01T00:00"),
          (S "due", S "2099-01-01T00:00"),
          (S "required", S "True")] none []],
     XNode.elem (S "prompts") [] none
       [XNode.elem (S "prompt") [] none
         [XNode.elem (S "description") [] (some prompt_text) []]],
     XNode.elem (S "rubric") [] none
       ([XNode.elem (S "criterion") [(S "feedback", S "optional")] none
          ([XNode.elem (S "name") [] (some (S "Response Quality")) [],
            XNode.elem (S "label") [] (some (S "Response Quality")) [],
            XNode.elem (S "prompt") []
              (some (S "Evaluate the overall quality of the response.")) []]
           ++ [oraOption (S "0") (S "Incomplete")
                 (S "Response does not address the prompt or is missing."),
               oraOption (S "1") (S "Developing")
                 (S "Response partially addresses the prompt but needs improvement."),
               oraOption (S "2") (S "Proficient")
                 (S "Response adequately addresses the prompt."),
               oraOption (S "3") (S "Exemplary")
                 (S "Response thoroughly and effectively addresses the prompt.")])]
        ++ [XNode.elem (S "feedbackprompt") []
              (some (S "(Optional) Provide additional feedback on this response.")) [],
            XNode.elem (S "feedback_default_text") [] (some []) []])]

/-- `_convert_short_answer` (`qti_to_capa.py` lines 146–176): with at least
one correct answer, an exact-match `stringresponse` whose `answer` attribute
is the first correct answer and whose `additional_answer` children are the
remaining ones; with none, the method returns `_convert_essay_ora`'s
document instead. -/
def convertShortAnswer (question : Question) : XNode :=
  match question.correct_answers with
  | [] => convertEssayOra question
  | a :: rest =>
    let string_resp :=
      XNode.elem (S "stringresponse") [(S "answer", a), (S "type", S "ci")] none
        ((rest.map (fun ans =>
            XNode.elem (S "additional_answer") [(S "answer", ans)] none []))
         ++ [XNode.elem (S "textline") [(S "size", S "20")] none []])
    XNode.elem (S "problem") [] none (questionTextNodes question ++ [string_resp])

/-- `_convert_numerical` (`qti_to_capa.py` lines 178–215): a
`numericalresponse` whose `answer` attribute is the first stored answer
(`str` of an already-string entry), with a tolerance `responseparam` exactly
when the parsed tolerance is not `None`; with no answers, a placeholder
paragraph instead. -/
def convertNumerical (question : Question) : XNode :=
  match question.correct_answers with
  | [] =>
    XNode.elem (S "problem") [] none
      (questionTextNodes question
       ++ [XNode.elem (S "p") []
             (some (S "[No correct answer specified for numerical question]")) []])
  | a :: _ =>
    let tolNodes :=
      match question.tolerance with
      | some t =>
        [XNode.elem (S "responseparam")
          [(S "type", S "tolerance"), (S "default", t)] none []]
      | none => []
    let num_resp :=
      XNode.elem (S "numericalresponse") [(S "answer", a)] none
        (tolNodes ++ [XNode.elem (S "formulaequationinput") [] none []])
    XNode.elem (S "problem") [] none (questionTextNodes question ++ [num_resp])

/-- Python's `str(tuple(xs))` for a list of strings (`options_str` in the
dropdown builders); `repr` requoting of embedded quotes is not modelled (no
claim depends on it). -/
def pyTupleRepr (xs : List Str) : Str :=
  let items := xs.map (fun s => Char.ofNat 39 :: s ++ [Char.ofNat 39])
  '(' :: List.intercalate (S ", ") items ++ (if xs.length = 1 then S ",)" else S ")")

/-- The correct-answer text resolution shared by the three dropdown-style
builders (`qti_to_capa.py` lines 313–322 etc.): the text of the last choice
whose id equals the blank's correct id (`None == None` matches), replaced by
the first option text when falsy. -/
def blankCorrectText (blank : QBlank) : Str :=
  let matched := ((blank.choices.filter (fun c => c.id == blank.correct_answer)).getLast?).map
    (·.text)
  match matched with
  | some t => if t ≠ [] then t else (blank.choices.map (·.text)).headD []
  | none => (blank.choices.map (·.text)).headD []

/-- One dropdown (`optionresponse`) for a blank, preceded by its label
paragraph; skipped entirely when the blank has no choices. -/
def blankNodes (labelText : Str) (blank : QBlank) : List XNode :=
  if blank.choices = [] then []
  else
    [XNode.elem (S "p") [] (some labelText) [],
     XNode.elem (S "optionresponse") [] none
       [XNode.elem (S "optioninput")
         [(S "options", pyTupleRepr (blank.choices.map (·.text))),
          (S "correct", blankCorrectText blank)] none []]]

/-- `_convert_matching` (`qti_to_capa.py` lines 295–343). -/
def convertMatching (question : Question) : XNode :=
  XNode.elem (S "problem") [] none
    (questionTextNodes question
     ++ (question.blanks.flatMap (fun b => blankNodes (S "Match: " ++ b.prompt) b))
     ++ [XNode.elem (S "p") [(S "class", S "conversion-note")]
           (some (S "[Note: This matching question was converted to dropdown format from Canvas.]"))
           []])

/-- `_convert_fill_in_multiple_blanks` (`qti_to_capa.py` lines 345–394);
the blank label is `[{prompt}]:` (the `blank_id` fallback of
`blank.get('prompt', blank.get('blank_id', ''))` is dead for parsed blanks,
which always carry the `prompt` key). -/
def convertFillInMultipleBlanks (question : Question) : XNode :=
  XNode.elem (S "problem") [] none
    (questionTextNodes question
     ++ (question.blanks.flatMap (fun b => blankNodes ('[' :: b.prompt ++ S "]:") b))
     ++ [XNode.elem (S "p") [(S "class", S "conversion-note")]
           (some (S "[Note: This fill-in-the-blanks question was converted to dropdown format from Canvas.]"))
           []])

/-- `_convert_multiple_dropdowns` (`qti_to_capa.py` lines 396–439). -/
def convertMultipleDropdowns (question : Question) : XNode :=
  XNode.elem (S "problem") [] none
    (questionTextNodes question
     ++ (question.blanks.flatMap (fun b => blankNodes ('[' :: b.prompt ++ S "]:") b)))

/-- `_convert_calculated` (`qti_to_capa.py` lines 441–493).  The
`answer_tolerance` field is modelled as `none` when falsy (the parser default
`0`), otherwise the rendering of the float. -/
def convertCalculated (question : Question) : XNode :=
  let display_text :=
    question.sample_vars.foldl
      (fun t kv => replaceLit ('[' :: kv.1 ++ S "]") kv.2 t)
      question.question_text
  let textNodes :=
    if display_text ≠ [] then
      [XNode.elem (S "p") [] (some (stripHtmlTags display_text)) []]
    else []
  match question.correct_answers with
  | [] =>
    XNode.elem (S "problem") [] none
      (textNodes
       ++ [XNode.elem (S "p") []
             (some (S "[No answer available for this calculated question]")) []])
  | a :: _ =>
    let tolNodes :=
      match question.answer_tolerance with
      | some t =>
        [XNode.elem (S "responseparam")
          [(S "type", S "tolerance"), (S "default", t)] none []]
      | none => []
    let num_resp :=
      XNode.elem (S "numericalresponse") [(S "answer", a)] none
        (tolNodes ++ [XNode.elem (S "formulaequationinput") [] none []])
    let var_info :=
      List.intercalate (S ", ")
        (question.sample_vars.map (fun kv => kv.1 ++ '=' :: kv.2))
    let noteNodes :=
      if pyTruthy question.formula then
        [XNode.elem (S "p") [(S "class", S "conversion-note")]
          (some (S "[Note: Originally a formula question. Formula: "
                 ++ (question.formula.getD [])
                 ++ S ", Variables: " ++ var_info ++ S "]")) []]
      else []
    XNode.elem (S "problem") [] none (textNodes ++ [num_resp] ++ noteNodes)

/-- `_convert_file_upload` (`qti_to_capa.py` lines 495–509). -/
def convertFileUpload (question : Question) : XNode :=
  XNode.elem (S "problem") [] none
    (questionTextNodes question
     ++ [XNode.elem (S "p") [(S "class", S "conversion-note")]
           (some (S "[This was a file upload question in Canvas. File uploads require manual grading. Consider using Open edX's ORA (Open Response Assessment) with file upload enabled, or configure this as a separately graded assignment.]"))
           []])

/-- `_convert_text_only` (`qti_to_capa.py` lines 511–517): a raw HTML
fragment, not a CAPA document. -/
def convertTextOnly (question : Question) : Str :=
  S "<div class=\"quiz-text-content\">\n"
    ++ stripHtmlTags question.question_text
    ++ S "\n</div>"

/-- `_convert_unsupported` (`qti_to_capa.py` lines 519–540). -/
def convertUnsupported (question : Question) : XNode :=
  let choicesNodes :=
    if question.choices ≠ [] then
      [XNode.elem (S "p") []
        (some (question.choices.foldl
          (fun p c => (p.1 ++ pyNatStr p.2 ++ S ". " ++ c.text ++ S "\n", p.2 + 1))
          (S "Choices:\n", 1)).1) []]
    else []
  XNode.elem (S "problem") [] none
    ([XNode.elem (S "p") []
        (some ('[' :: S "Question type '" ++ question.qtype
               ++ S "' not yet supported]")) []]
     ++ questionTextNodes question
     ++ choicesNodes)

/-- `convert_question` (`qti_to_capa.py` lines 21–60): dispatch on the type
tag, producing the body document plus the component kind (`problem`,
`openassessment`, or `html`). -/
def convertQuestion (question : Question) : QBody × Str :=
  let t := question.qtype
  if t = S "multiple_choice" then (.tree (convertMultipleChoice question), S "problem")
  else if t = S "true_false" then (.tree (convertTrueFalse question), S "problem")
  else if t = S "multiple_response" then (.tree (convertMultipleResponse question), S "problem")
  else if t = S "short_answer" then (.tree (convertShortAnswer question), S "problem")
  else if t = S "numerical" then (.tree (convertNumerical question), S "problem")
  else if t = S "essay" then (.tree (convertEssayOra question), S "openassessment")
  else if t = S "matching_question" then (.tree (convertMatching question), S "problem")
  else if t = S "fill_in_multiple_blanks_question" then
    (.tree (convertFillInMultipleBlanks question), S "problem")
  else if t = S "multiple_dropdowns_question" then
    (.tree (convertMultipleDropdowns question), S "problem")
  else if t = S "calculated_question" then (.tree (convertCalculated question), S "problem")
  else if t = S "file_upload_question" then (.tree (convertFileUpload question), S "problem")
  else if t = S "text_only_question" then (.raw (convertTextOnly question), S "html")
  else (.tree (convertUnsupported question), S "problem")

end QTIToCapaConverter

/-! ### Read-only accessors over emitted documents (used to state claims). -/

/-- The tag of an element. -/
def XNode.tag : XNode → Str
  | .elem t _ _ _ => t

/-- The attributes of an element. -/
def XNode.attrs : XNode → List (Str × Str)
  | .elem _ a _ _ => a

/-- The children of an element. -/
def XNode.children : XNode → List XNode
  | .elem _ _ _ c => c

/-- Look up an attribute value. -/
def XNode.attr (x : XNode) (name : Str) : Option Str :=
  x.attrs.lookup name

/-- The first child with the given tag. -/
def XNode.childNamed (x : XNode) (tag : Str) : Option XNode :=
  x.children.find? (fun c => c.tag == tag)

/-- All children with the given tag. -/
def XNode.childrenNamed (x : XNode) (tag : Str) : List XNode :=
  x.children.filter (fun c => c.tag == tag)

/-- The `answer` attribute of the `stringresponse` of a problem body, when
present: the primary exact-match answer of a short-answer problem. -/
def stringresponseAnswer (b : QBody) : Option Str :=
  match b with
  | .tree x => (x.childNamed (S "stringresponse")).bind (fun r => r.attr (S "answer"))
  | .raw _ => none

/-- The `answer` attributes of the `additional_answer` children of the
`stringresponse` of a problem body: the accepted alternates. -/
def additionalAnswers (b : QBody) : List Str :=
  match b with
  | .tree x =>
    match x.childNamed (S "stringresponse") with
    | some r => (r.childrenNamed (S "additional_answer")).filterMap
        (fun c => c.attr (S "answer"))
    | none => []
  | .raw _ => none |>.getD []

/-- The attribute list of the `choicegroup` inside the
`multiplechoiceresponse` of a problem body, when present. -/
def choicegroupAttrs (b : QBody) : Option (List (Str × Str)) :=
  match b with
  | .tree x =>
    ((x.childNamed (S "multiplechoiceresponse")).bind
      (fun r => r.childNamed (S "choicegroup"))).map XNode.attrs
  | .raw _ => none

/-- The `correct` flags, in order, of the choices of the `choicegroup`
inside the `multiplechoiceresponse` of a problem body. -/
def choicegroupFlags (b : QBody) : List Str :=
  match b with
  | .tree x =>
    match (x.childNamed (S "multiplechoiceresponse")).bind
        (fun r => r.childNamed (S "choicegroup")) with
    | some g => (g.childrenNamed (S "choice")).filterMap (fun c => c.attr (S "correct"))
    | none => []
  | .raw _ => []

/-! ## The Canvas archive parser (`src/parsers/canvas_parser.py`).

Filesystem contents are supplied as data: whether the archive path exists,
whether `imsmanifest.xml` is present after extraction, and the already-parsed
course data (missing settings files yield the documented defaults and are
part of that data; a malformed inner XML file would abort with a third,
unrelated exception and is outside the two error classes claimed). -/

/-- A module item (`canvas_parser.py` `_parse_module_item`, lines 171–184).
The `identifier` attribute may be absent (`none`); the text fields default to
the empty string when the element is missing. -/
structure Item where
  identifier : Option Str
  content_type : Str
  title : Str
  identifierref : Str
  workflow_state : Str
  url : Str
deriving DecidableEq, Repr

/-- A module (`canvas_parser.py` `_parse_module`, lines 137–169); only the
fields the conversion claims exercise are carried (`completion_requirements`
and `position` never influence identifiers, unit attachment, or the ledger). -/
structure Canvas.Module where
  identifier : Option Str
  title : Str
  workflow_state : Str
  require_sequential_progress : Bool
  prerequisites : List Str
  items : List Item
deriving DecidableEq, Repr

/-- The parsed course data assembled by `CanvasParser.parse`
(`canvas_parser.py` lines 56–67); course-settings fields other than the
module list do not affect the claims below and are elided. -/
structure CourseData where
  title : Str
  modules : List Canvas.Module
deriving DecidableEq, Repr

/-- The filesystem state `CanvasParser.parse` inspects: existence of the
archive path, presence of `imsmanifest.xml` after extraction, and the data
the remaining settings files parse to. -/
structure CanvasFS where
  pathExists : Bool
  manifestPresent : Bool
  data : CourseData
deriving DecidableEq, Repr

/-- The two fatal setup errors of `CanvasParser.parse`: `FileNotFoundError`
(line 37) and the `ValueError("No imsmanifest.xml found in IMSCC")` of
`_parse_manifest` (line 76). -/
inductive ParseError where
  | notFound
  | formatError
deriving DecidableEq, Repr

/-- `CanvasParser.parse` (`canvas_parser.py` lines 24–69): raise `notFound`
when the archive path does not exist; extract; `_parse_manifest` raises
`formatError` when `imsmanifest.xml` is absent; otherwise return the parsed
course data. -/
def CanvasParser.parse (fs : CanvasFS) : Except ParseError CourseData :=
  if ¬fs.pathExists then .error .notFound
  else if ¬fs.manifestPresent then .error .formatError
  else .ok fs.data

/-! ## The Canvas → IR conversion pipeline
(`src/converters/canvas_to_ir.py`, orchestrated by `src/converter.py`).

The converter object state (`__init__`, lines 25–35) is threaded explicitly
as `ConvState`; `self.used_names` of the shared `URLNameGenerator` is the
`used` field.  Parser file accesses made during conversion are an
environment of accessor functions (`ConvEnv`).  Component bodies
(wiki/assignment HTML, CAPA XML) never influence identifiers, unit
attachment, or the ledger, and are not carried on pipeline components. -/

/-- Quiz-level settings from `assessment_meta.xml`
(`_parse_assessment_meta`, `canvas_to_ir.py` lines 661–735); fields that a
missing or unparsable file leaves unset are `none`. -/
structure QuizSettings where
  time_limit : Option Int
  max_attempts : Option Nat
  show_correct_answers : Bool
  quiz_type : Option Str
deriving DecidableEq, Repr

/-- Parsed quiz data as returned by `QTIParser.parse_quiz` (the quiz claims
need only the question list). -/
structure QuizData where
  questions : List Question
deriving DecidableEq, Repr

/-- Parser/filesystem accessors consulted during conversion, supplied as
data: `get_wiki_page_content`, `get_assignment_settings` (reduced to the
submission-type list, the only field that decides the component shape),
existence of `{identifierref}/assessment_qti.xml`, its `parse_quiz` result
(`none` for an unparsable file), and the `assessment_meta.xml` settings. -/
structure ConvEnv where
  wikiContent : Str → Option Str
  assignmentSubmissionTypes : Str → Option Str
  qtiExists : Str → Bool
  qtiParse : Str → Option QuizData
  assessmentMeta : Str → QuizSettings

/-- An entry of the run-scoped `skipped_items` ledger
(`canvas_to_ir.py` lines 291–320). -/
structure SkippedItem where
  stype : Str
  title : Str
  url : Str
deriving DecidableEq, Repr

/-- An entry of `timed_quizzes` (`canvas_to_ir.py` lines 643–649). -/
structure TimedQuiz where
  title : Str
  time_limit : Int
  questions : Nat
deriving DecidableEq, Repr

/-- `ComponentIR` (`models/intermediate_rep.py` lines 13–21), restricted to
the fields the claims mention (kind tag, display title, generated
identifier). -/
structure ComponentIR where
  ctype : Str
  display_name : Str
  url_name : Str
deriving DecidableEq, Repr, Inhabited

/-- `VerticalIR` (`models/intermediate_rep.py` lines 24–30). -/
structure VerticalIR where
  display_name : Str
  url_name : Str
  components : List ComponentIR
  published : Bool
deriving DecidableEq, Repr, Inhabited

/-- `SequentialIR` (`models/intermediate_rep.py` lines 33–44). -/
structure SequentialIR where
  display_name : Str
  url_name : Str
  verticals : List VerticalIR
  published : Bool
  prereq : Option Str
  require_sequential : Bool
deriving DecidableEq, Repr, Inhabited

/-- `ChapterIR` (`models/intermediate_rep.py` lines 47–54). -/
structure ChapterIR where
  display_name : Str
  url_name : Str
  sequentials : List SequentialIR
  published : Bool
deriving DecidableEq, Repr, Inhabited

/-- `CourseIR`, restricted to the chapter tree. -/
structure CourseIR where
  title : Str
  chapters : List ChapterIR
deriving DecidableEq, Repr, Inhabited

/-- The mutable converter state (`CanvasToIRConverter.__init__`,
`canvas_to_ir.py` lines 25–35): the URL-name registry, the skipped-item
ledger, the timed-quiz list, and the two identifier maps built upfront. -/
structure ConvState where
  used : List Str
  skipped : List SkippedItem
  timed : List TimedQuiz
  identifierMap : List (Str × Str)
  itemIdMap : List (Str × Str)
deriving Repr

/-- The fresh state of a newly constructed converter. -/
def ConvState.init : ConvState :=
  { used := [], skipped := [], timed := [], identifierMap := [], itemIdMap := [] }

/-- `self.url_gen.generate(title)` with the default `max_length = 50`: every
call site in `canvas_to_ir.py` uses the default. -/
def mint (st : ConvState) (title : Str) : Str × ConvState :=
  let r := URLNameGenerator.generate st.used title 50
  (r.1, { st with used := r.2 })

/-- Truthiness of the optional `identifier` attribute of an item (`item.get('identifier')`). -/
def Item.truthyId (it : Item) : Option Str :=
  match it.identifier with
  | some i => if i ≠ [] then some i else none
  | none => none

/-- `_build_identifier_map` (`canvas_to_ir.py` lines 113–131), one item: when
the item has a (truthy) `identifierref`, generate the url_name once, record
it under the `identifierref`, and — when the item also carries a (truthy)
`identifier` — under the item identifier for reuse by
`_convert_item_to_vertical`. -/
def buildIdentifierMapItem (st : ConvState) (it : Item) : ConvState :=
  if it.identifierref ≠ [] then
    let (u, st) := mint st it.title
    let st := { st with identifierMap := (it.identifierref, u) :: st.identifierMap }
    match it.truthyId with
    | some iid => { st with itemIdMap := (iid, u) :: st.itemIdMap }
    | none => st
  else st

/-- `_build_identifier_map` (`canvas_to_ir.py` lines 113–131): reset both
maps, then walk every item of every module. -/
def buildIdentifierMap (st : ConvState) (modules : List Canvas.Module) : ConvState :=
  let st := { st with identifierMap := [], itemIdMap := [] }
  modules.foldl (fun st m => m.items.foldl buildIdentifierMapItem st) st

/-- First pass of `_build_prerequisite_map` (`canvas_to_ir.py` lines
176–179): generate a url_name for every module title (these mints precede
every chapter mint and consume registry slots). -/
def prereqFirstPass (st : ConvState) (modules : List Canvas.Module) :
    List (Option Str × Str) × ConvState :=
  modules.foldl
    (fun p m =>
      let (u, st) := mint p.2 m.title
      (p.1 ++ [(m.identifier, u)], st))
    ([], st)

/-- Second pass of `_build_prerequisite_map` (lines 181–187): map each module
with prerequisites to the url_name generated for its first prerequisite. -/
def prereqSecondPass (moduleUrlNames : List (Option Str × Str))
    (modules : List Canvas.Module) : List (Option Str × Str) :=
  modules.foldl
    (fun acc m =>
      match m.prerequisites with
      | [] => acc
      | p :: _ =>
        match moduleUrlNames.lookup (some p) with
        | some u => acc ++ [(m.identifier, u)]
        | none => acc)
    []

/-- `_build_prerequisite_map` (`canvas_to_ir.py` lines 171–189). -/
def buildPrerequisiteMap (st : ConvState) (modules : List Canvas.Module) :
    List (Option Str × Str) × ConvState :=
  let (names, st) := prereqFirstPass st modules
  (prereqSecondPass names modules, st)

/-- Python `str.split(',')`. -/
def splitComma : Str → List Str
  | [] => [[]]
  | c :: rest =>
    match splitComma rest with
    | [] => [[]]
    | h :: t => if c = ',' then [] :: h :: t else (c :: h) :: t

/-- Python `str(i)` for an integer. -/
def pyIntStr (i : Int) : Str :=
  if i < 0 then '-' :: pyNatStr (-i).toNat else pyNatStr i.toNat

/-- `_convert_quiz` (`canvas_to_ir.py` lines 576–659): locate the QTI file
(absent → no components), parse it (no data or no questions → no
components), then convert every question into a component whose kind comes
from `convert_question` and whose url_name is minted from
`{item title}_q{index}`; finally record the quiz in `timed_quizzes` when it
has a positive time limit.  The per-component settings map copied from the
quiz settings does not influence any claim and is not carried. -/
def quizFoldStep (it : Item) (p : List ComponentIR × ConvState × Nat)
    (q : Question) : List ComponentIR × ConvState × Nat :=
  let i := p.2.2
  let kind := (QTIToCapaConverter.convertQuestion q).2
  let display := if q.title ≠ [] then q.title else S "Question " ++ pyNatStr i
  let (curl, st') := mint p.2.1 (it.title ++ S "_q" ++ pyNatStr i)
  (p.1 ++ [{ ctype := kind, display_name := display, url_name := curl }], st', i + 1)

/-- See `convertQuiz` below (the doc comment above `quizFoldStep` covers the
per-question loop body, `canvas_to_ir.py` lines 609–639). -/
def convertQuiz (env : ConvEnv) (st : ConvState) (it : Item) :
    List ComponentIR × ConvState :=
  let ref := it.identifierref
  if ¬env.qtiExists ref then ([], st)
  else
    match env.qtiParse ref with
    | none => ([], st)
    | some qd =>
      if qd.questions.isEmpty then ([], st)
      else
        let quiz_settings := env.assessmentMeta ref
        let r := qd.questions.foldl (quizFoldStep it) ([], st, 1)
        let components := r.1
        let st := r.2.1
        let st :=
          match quiz_settings.time_limit with
          | some t =>
            if 0 < t then
              { st with timed := st.timed
                  ++ [{ title := it.title, time_limit := t, questions := components.length }] }
            else st
          | none => st
        (components, st)

/-- The quiz re-detection of `_convert_item_to_vertical` (`canvas_to_ir.py`
lines 241–248): an item whose reference directory holds an
`assessment_qti.xml` is treated as a quiz regardless of its declared type
(unless it is already a quiz, page or assignment). -/
def itemContentType (env : ConvEnv) (it : Item) : Str :=
  if it.identifierref ≠ []
      ∧ it.content_type ∉ [S "Quizzes::Quiz", S "WikiPage", S "Assignment"]
      ∧ env.qtiExists it.identifierref then
    S "Quizzes::Quiz"
  else it.content_type

/-- The content-type branch of `_convert_item_to_vertical` (`canvas_to_ir.py`
lines 267–320): the components the item contributes, the display name (with
the time-limit decoration for a timed quiz), and the updated state (new
mints, possibly a new ledger entry). -/
def convertItemComponents (env : ConvEnv) (st : ConvState) (it : Item)
    (ct : Str) : List ComponentIR × Str × ConvState :=
  if ct = S "WikiPage" then
      match env.wikiContent it.identifierref with
      | some html =>
        if html ≠ [] then
          let (curl, st) := mint st (it.title ++ S "_html")
          ([{ ctype := S "html", display_name := it.title, url_name := curl }],
           it.title, st)
        else ([], it.title, st)
      | none => ([], it.title, st)
    else if ct = S "Assignment" then
      match env.assignmentSubmissionTypes it.identifierref with
      | none => ([], it.title, st)
      | some submission_types =>
        let sub_types :=
          if submission_types ≠ [] then (splitComma submission_types).map pyStripWs
          else []
        let has_text := S "online_text_entry" ∈ sub_types
        let has_upload := S "online_upload" ∈ sub_types
        let ctype := if has_text ∨ has_upload then S "openassessment" else S "html"
        let (curl, st) := mint st (it.title ++ S "_assignment")
        ([{ ctype := ctype, display_name := it.title, url_name := curl }],
         it.title, st)
    else if ct = S "Quizzes::Quiz" then
      let (components, st) := convertQuiz env st it
      let dname :=
        if ¬components.isEmpty then
          match st.timed.getLast? with
          | some tq =>
            if tq.title = it.title then
              it.title ++ S " (" ++ pyIntStr tq.time_limit ++ S " min time limit)"
            else it.title
          | none => it.title
        else it.title
      (components, dname, st)
    else if ct = S "ContextExternalTool" then
      ([], it.title,
       { st with skipped := st.skipped
           ++ [{ stype := S "LTI Tool", title := it.title, url := it.url }] })
    else if ct = S "DiscussionTopic" ∨ ct = S "Discussion" then
      ([], it.title,
       { st with skipped := st.skipped
           ++ [{ stype := S "Discussion Topic", title := it.title, url := it.url }] })
    else if ct = S "ExternalUrl" then
      ([], it.title,
       { st with skipped := st.skipped
           ++ [{ stype := S "External URL", title := it.title, url := it.url }] })
    else
      if ct ≠ [] ∧ ct ∉ [S "WikiPage", S "Assignment", S "Quizzes::Quiz"] then
        ([], it.title,
         { st with skipped := st.skipped
             ++ [{ stype := ct, title := it.title, url := it.url }] })
      else ([], it.title, st)

/-- The url_name selection of `_convert_item_to_vertical` (`canvas_to_ir.py`
lines 253–259): reuse the upfront url_name when the (truthy) item identifier
is in `item_id_to_url_name`, otherwise mint a fresh one from the title. -/
def itemVertUrl (st : ConvState) (it : Item) : Str × ConvState :=
  match it.truthyId with
  | some iid =>
    match st.itemIdMap.lookup iid with
    | some u => (u, st)
    | none => mint st it.title
  | none => mint st it.title

/-- `_convert_item_to_vertical`, continued (`canvas_to_ir.py` lines
234–322): determine the url_name (`itemVertUrl`, lines 253–259), build the
components (`convertItemComponents`), and return the vertical only when it
has components (line 322). -/
def convertItemToVertical (env : ConvEnv) (st : ConvState) (it : Item) :
    Option VerticalIR × ConvState :=
  let ct := itemContentType env it
  let published := it.workflow_state = S "active"
  let vs := itemVertUrl st it
  let r := convertItemComponents env vs.2 it ct
  (if r.1.isEmpty then none
   else some { display_name := r.2.1, url_name := vs.1,
               components := r.1, published := published },
   r.2.2)

/-- The per-item loop body of `_convert_module_to_chapter`
(`canvas_to_ir.py` lines 221–228): append the vertical when one is produced.
An exception inside a single item's conversion is caught by the `try` there
and contributes nothing — in the total model an item that produces nothing
returns `none`. -/
def itemFoldStep (env : ConvEnv) (p : List VerticalIR × ConvState) (it : Item) :
    List VerticalIR × ConvState :=
  let r := convertItemToVertical env p.2 it
  match r.1 with
  | some v => (p.1 ++ [v], r.2)
  | none => (p.1, r.2)

/-- `_convert_module_to_chapter` (`canvas_to_ir.py` lines 191–232): mint the
chapter url_name, derive the single sequential's identifier as
`{chapter_url_name}_content` (no generator call), and attach only the
verticals the item conversion returns (see `itemFoldStep`). -/
def convertModuleToChapter (env : ConvEnv) (m : Canvas.Module)
    (prereq : Option Str) (st : ConvState) : ChapterIR × ConvState :=
  let (chapterUrl, st) := mint st m.title
  let published := m.workflow_state = S "active"
  let r := m.items.foldl (itemFoldStep env) ([], st)
  let sequential : SequentialIR :=
    { display_name := m.title, url_name := chapterUrl ++ S "_content",
      verticals := r.1, published := published, prereq := prereq,
      require_sequential := m.require_sequential_progress }
  ({ display_name := m.title, url_name := chapterUrl,
     sequentials := [sequential], published := published }, r.2)

/-- `_create_import_notes_chapter` (`canvas_to_ir.py` lines 737–792): the
synthetic chapter holding the unsupported-items report (its single component
is the rendered ledger; the HTML body itself carries no identifiers). -/
def createImportNotesChapter (st : ConvState) : ChapterIR × ConvState :=
  let (chapterUrl, st) := mint st (S "import_notes")
  let (seqUrl, st) := mint st (S "unsupported_content")
  let (vertUrl, st) := mint st (S "manual_review")
  let (compUrl, st) := mint st (S "unsupported_report")
  ({ display_name := S "Import Notes", url_name := chapterUrl, published := true,
     sequentials :=
       [{ display_name := S "Unsupported Content", url_name := seqUrl,
          published := true, prereq := none, require_sequential := false,
          verticals :=
            [{ display_name := S "Items Requiring Manual Review",
               url_name := vertUrl, published := true,
               components :=
                 [{ ctype := S "html", display_name := S "Unsupported Items Report",
                    url_name := compUrl }] }] }] }, st)

/-- `CanvasToIRConverter.convert` (`canvas_to_ir.py` lines 37–111): build the
identifier maps, run the prerequisite passes, convert every module to a
chapter, and append the Import Notes chapter when the ledger is non-empty.
(The assignment-groups dictionary, course-id extraction and front-page fetch
on lines 51–89 call no identifier generation and do not touch the tree or
ledger; they are elided.)  `moduleFoldStep` is the body of the module loop
(lines 95–101). -/
def moduleFoldStep (env : ConvEnv) (prereqMap : List (Option Str × Str))
    (p : List ChapterIR × ConvState) (m : Canvas.Module) :
    List ChapterIR × ConvState :=
  let r := convertModuleToChapter env m (prereqMap.lookup m.identifier) p.2
  (p.1 ++ [r.1], r.2)

/-- `CanvasToIRConverter.convert` (`canvas_to_ir.py` lines 37–111): build the
identifier maps, run the prerequisite passes, convert every module to a
chapter, and append the Import Notes chapter when the ledger is non-empty
(see `moduleFoldStep`). -/
def CanvasToIRConverter.convert (env : ConvEnv) (data : CourseData)
    (st : ConvState) : CourseIR × ConvState :=
  let st := buildIdentifierMap st data.modules
  let (prereqMap, st) := buildPrerequisiteMap st data.modules
  let r := data.modules.foldl (moduleFoldStep env prereqMap) ([], st)
  let (chapters, st) :=
    if ¬r.2.skipped.isEmpty then
      let (nc, st') := createImportNotesChapter r.2
      (r.1 ++ [nc], st')
    else r
  ({ title := data.title, chapters := chapters }, st)

/-- One full pipeline run as started by `convert_canvas_to_openedx`
(`converter.py` lines 142–159): each invocation constructs a fresh
`CanvasToOpenEdXConverter`, whose `__init__` builds a fresh
`CanvasToIRConverter` with an empty registry, ledger and maps
(`canvas_to_ir.py` lines 25–35); the OLX serializer and asset copier mint no
identifiers. -/
def runPipeline (env : ConvEnv) (data : CourseData) : CourseIR × ConvState :=
  CanvasToIRConverter.convert env data ConvState.init

/-- The full entry: parse, then convert (`converter.py` lines 25–94).  A
fatal parse error propagates and no IR or output tree exists. -/
def fullConvert (fs : CanvasFS) (env : ConvEnv) :
    Except ParseError (CourseIR × ConvState) :=
  (CanvasParser.parse fs).map (fun d => runPipeline env d)

/-- The generator-minted identifiers of a vertical: its own and its
components' (sequentials are excluded: their identifier is derived by
appending `_content`, not minted). -/
def VerticalIR.mintedUrls (v : VerticalIR) : List Str :=
  v.url_name :: v.components.map (·.url_name)

/-- The generator-minted identifiers of a chapter subtree. -/
def ChapterIR.mintedUrls (c : ChapterIR) : List Str :=
  c.url_name :: c.sequentials.flatMap (fun s => s.verticals.flatMap VerticalIR.mintedUrls)

/-- All generator-minted identifiers in a course tree. -/
def CourseIR.mintedUrls (course : CourseIR) : List Str :=
  course.chapters.flatMap ChapterIR.mintedUrls

/-- Every identifier appearing on a node below Course, sequentials
included. -/
def ChapterIR.allUrls (c : ChapterIR) : List Str :=
  c.url_name :: c.sequentials.flatMap
    (fun s => s.url_name :: s.verticals.flatMap VerticalIR.mintedUrls)

/-- Every identifier appearing on a node below Course, sequentials
included. -/
def CourseIR.allUrls (course : CourseIR) : List Str :=
  course.chapters.flatMap ChapterIR.allUrls

/-- The (truthy) identifiers of all items of a module list, in order. -/
def truthyItemIds (modules : List Canvas.Module) : List Str :=
  modules.flatMap (fun m => m.items.filterMap Item.truthyId)

/-! ### Auxiliary definitions used by the verification (not part of the
source embedding): digit-string arithmetic, registry bookkeeping, and the
concrete inputs of counterexamples and witnesses. -/

/-- Is `c` a decimal digit character? -/
def isDigitCh (c : Char) : Bool := '0' ≤ c ∧ c ≤ '9'

/-- Value of a little-endian digit string (left inverse of `natDigitsAux`). -/
def ofRevDigits : Str → Nat
  | [] => 0
  | c :: r => (c.toNat - 48) + 10 * ofRevDigits r

/-- The upfront-map token an item would reuse in the given state
(`canvas_to_ir.py` lines 253–259): its (truthy) identifier looked up in
`item_id_to_url_name`. -/
def itemAvail (st : ConvState) (it : Item) : Option Str :=
  it.truthyId.bind (fun iid => st.itemIdMap.lookup iid)

/-- The upfront-map tokens the items of a list would reuse, in order. -/
def itemsAvail (st : ConvState) (its : List Item) : List Str :=
  its.filterMap (itemAvail st)

/-- The upfront-map tokens the items of a module list would reuse. -/
def modulesAvail (st : ConvState) (ms : List Canvas.Module) : List Str :=
  ms.flatMap (fun m => itemsAvail st m.items)

/-- The generator-minted urls carried by an optional vertical. -/
def optVertUrls : Option VerticalIR → List Str
  | some v => v.mintedUrls
  | none => []

/-- A conversion environment whose only content is one wiki page under
reference `ref1` (the archive of the identifier-collision counterexample;
validated against the Python sources). -/
def c2Env : ConvEnv :=
  { wikiContent := fun r => if r = S "ref1" then some (S "<p>hi</p>") else none,
    assignmentSubmissionTypes := fun _ => none,
    qtiExists := fun _ => false,
    qtiParse := fun _ => none,
    assessmentMeta := fun _ => ⟨none, none, false, none⟩ }

/-- One module titled `m` holding one wiki-page item titled `m 1 content`:
the upfront pass names the item `m_1_content`; the chapter for `m` becomes
`m_1` (after `m` was taken by the prerequisite pass), so its sequential is
derived as `m_1_content` — colliding with the item's unit. -/
def c2Data : CourseData :=
  { title := S "T",
    modules := [{ identifier := some (S "mod1"), title := S "m",
                  workflow_state := S "active", require_sequential_progress := false,
                  prerequisites := [],
                  items := [{ identifier := some (S "it1"), content_type := S "WikiPage",
                              title := S "m 1 content", identifierref := S "ref1",
                              workflow_state := S "active", url := [] }] }] }

/-- A short-answer question with two parsed correct answers. -/
def saQuestion : Question :=
  { identifier := S "idsa", title := S "SA", qtype := S "short_answer",
    question_text := S "Name it:", choices := [],
    correct_answers := [S "Paris", S "paris city"], points := 1,
    tolerance := none, blanks := [], formula := none, sample_vars := [],
    answer_tolerance := none }

/-- A short-answer question with no parsed correct answers. -/
def saQuestionNoAnswers : Question :=
  { identifier := S "idsa0", title := S "SA0", qtype := S "short_answer",
    question_text := S "Name it:", choices := [],
    correct_answers := [], points := 1,
    tolerance := none, blanks := [], formula := none, sample_vars := [],
    answer_tolerance := none }

/-- A parseable question sitting in a question bank behind one unparseable
item. -/
def bankQuestion : Question :=
  { identifier := S "bq", title := S "BQ", qtype := S "multiple_choice",
    question_text := S "Pick one", choices := [⟨some (S "a"), S "A"⟩],
    correct_answers := [S "a"], points := 1,
    tolerance := none, blanks := [], formula := none, sample_vars := [],
    answer_tolerance := none }

/-! # Theorems -/

/-! ## Digit strings and the collision counter -/
theorem digitCh_toNat (d : Nat) (h : d < 10) : (digitCh d).toNat = 48 + d := by
  interval_cases d <;> rfl

theorem isDigitCh_digitCh (d : Nat) : isDigitCh (digitCh d) := by
  rcases d with _|_|_|_|_|_|_|_|_|d <;> first | decide | rfl

theorem ofRevDigits_natDigitsAux : ∀ fuel n, n ≤ fuel →
    ofRevDigits (natDigitsAux fuel n) = n := by
  intro fuel
  induction fuel with
  | zero => intro n hn; interval_cases n; rfl
  | succ f ih =>
    intro n hn
    match n with
    | 0 => rfl
    | m + 1 =>
      have hdiv : (m + 1) / 10 ≤ f := by
        have := Nat.div_lt_self (Nat.succ_pos m) (by norm_num : 1 < 10)
        omega
      have hmod : (m + 1) % 10 < 10 := Nat.mod_lt _ (by norm_num)
      simp only [natDigitsAux, ofRevDigits, ih _ hdiv, digitCh_toNat _ hmod]
      omega

theorem natDigitsAux_mem_isDigit : ∀ fuel n c, c ∈ natDigitsAux fuel n → isDigitCh c := by
  intro fuel
  induction fuel with
  | zero => intro n c hc; simp [natDigitsAux] at hc
  | succ f ih =>
    intro n c hc
    match n with
    | 0 => simp [natDigitsAux] at hc
    | m + 1 =>
      simp only [natDigitsAux, List.mem_cons] at hc
      rcases hc with h | h
      · exact h ▸ isDigitCh_digitCh _
      · exact ih _ _ h

theorem pyNatStr_mem_isDigit (n : Nat) (c : Char) (hc : c ∈ pyNatStr n) : isDigitCh c := by
  unfold pyNatStr at hc
  split at hc
  · simp at hc; exact hc ▸ (by decide)
  · rw [List.mem_reverse] at hc
    exact natDigitsAux_mem_isDigit _ _ _ hc

theorem pyNatStr_injective (a b : Nat) (h : pyNatStr a = pyNatStr b) : a = b := by
  have key : ∀ n : Nat, ofRevDigits ((pyNatStr n).reverse) = n := by
    intro n
    unfold pyNatStr
    split
    · rename_i hn; subst hn; rfl
    · rw [List.reverse_reverse]; exact ofRevDigits_natDigitsAux _ _ le_rfl
  calc a = ofRevDigits ((pyNatStr a).reverse) := (key a).symm
  _ = ofRevDigits ((pyNatStr b).reverse) := by rw [h]
  _ = b := key b

theorem pyNatStr_ne_nil (n : Nat) : pyNatStr n ≠ [] := by
  unfold pyNatStr
  split
  · simp
  · intro h
    rw [List.reverse_eq_nil_iff] at h
    rename_i hn
    match n, hn with
    | m + 1, _ => simp [natDigitsAux] at h
theorem digits_affix_inj : ∀ (a b u v : Str),
    (∀ c ∈ a, isDigitCh c) → (∀ c ∈ b, isDigitCh c) →
    a ++ '_' :: u = b ++ '_' :: v → a = b ∧ u = v := by
  intro a
  induction a with
  | nil =>
    intro b u v _ hb h
    cases b with
    | nil => simp at h; exact ⟨rfl, h⟩
    | cons c bs =>
      simp only [List.nil_append, List.cons_append, List.cons.injEq] at h
      have hc := hb c (List.mem_cons_self _ _)
      rw [← h.1] at hc
      exact absurd hc (by decide)
  | cons c as ih =>
    intro b u v ha hb h
    cases b with
    | nil =>
      simp only [List.cons_append, List.nil_append, List.cons.injEq] at h
      have hc := ha c (List.mem_cons_self _ _)
      rw [h.1] at hc
      exact absurd hc (by decide)
    | cons d bs =>
      simp only [List.cons_append, List.cons.injEq] at h
      have := ih bs u v (fun x hx => ha x (List.mem_cons_of_mem _ hx))
        (fun x hx => hb x (List.mem_cons_of_mem _ hx)) h.2
      exact ⟨by rw [h.1, this.1], this.2⟩

theorem suffix_digits_inj (x y u v : Str)
    (hu : ∀ c ∈ u, isDigitCh c) (hv : ∀ c ∈ v, isDigitCh c)
    (h : x ++ '_' :: u = y ++ '_' :: v) : u = v := by
  have hrev : u.reverse ++ '_' :: x.reverse = v.reverse ++ '_' :: y.reverse := by
    have := congrArg List.reverse h
    simpa [List.reverse_append] using this
  have := digits_affix_inj u.reverse v.reverse x.reverse y.reverse
    (fun c hc => hu c (List.mem_reverse.mp hc))
    (fun c hc => hv c (List.mem_reverse.mp hc)) hrev
  have := congrArg List.reverse this.1
  simpa using this

theorem candidate_injective (orig : Str) (m : Nat) (j k : Nat)
    (h : URLNameGenerator.candidate orig m j = URLNameGenerator.candidate orig m k) :
    j = k := by
  unfold URLNameGenerator.candidate at h
  exact pyNatStr_injective _ _
    (suffix_digits_inj _ _ _ _ (fun c => pyNatStr_mem_isDigit j c)
      (fun c => pyNatStr_mem_isDigit k c) h)

theorem genLoop_spec (orig : Str) (m : Nat) (used : List Str) :
    ∀ fuel counter, (∃ j, j < fuel ∧ URLNameGenerator.candidate orig m (counter + j) ∉ used) →
    URLNameGenerator.genLoop orig m used counter fuel ∉ used ∧
      ∃ j, j < fuel ∧
        URLNameGenerator.genLoop orig m used counter fuel
          = URLNameGenerator.candidate orig m (counter + j) := by
  intro fuel
  induction fuel with
  | zero =>
    rintro counter ⟨j, hj, -⟩
    omega
  | succ f ih =>
    rintro counter ⟨j, hj, hfree⟩
    by_cases hc : URLNameGenerator.candidate orig m counter ∈ used
    · have hj0 : j ≠ 0 := by
        rintro rfl
        exact hfree (by simpa using hc)
      obtain ⟨j', rfl⟩ : ∃ j', j = j' + 1 := ⟨j - 1, by omega⟩
      have hfree' : URLNameGenerator.candidate orig m ((counter + 1) + j') ∉ used := by
        have : (counter + 1) + j' = counter + (j' + 1) := by omega
        rw [this]; exact hfree
      obtain ⟨h1, j'', hj'', heq⟩ := ih (counter + 1) ⟨j', by omega, hfree'⟩
      have hstep : URLNameGenerator.genLoop orig m used counter (f + 1)
          = URLNameGenerator.genLoop orig m used (counter + 1) f := by
        simp [URLNameGenerator.genLoop, hc]
      refine ⟨by rw [hstep]; exact h1, j'' + 1, by omega, ?_⟩
      rw [hstep, heq]
      congr 1
      omega
    · have hstep : URLNameGenerator.genLoop orig m used counter (f + 1)
          = URLNameGenerator.candidate orig m counter := by
        simp [URLNameGenerator.genLoop, hc]
      exact ⟨by rw [hstep]; exact hc, 0, by omega, by rw [hstep]; congr 1⟩

theorem exists_free_candidate (orig : Str) (m : Nat) (used : List Str) :
    ∃ j, j < used.length + 1 ∧ URLNameGenerator.candidate orig m (1 + j) ∉ used := by
  by_contra hcon
  push_neg at hcon
  have hnd : ((List.range (used.length + 1)).map
      (fun j => URLNameGenerator.candidate orig m (1 + j))).Nodup :=
    List.Nodup.map (fun a b h => by have := candidate_injective orig m _ _ h; omega)
      (List.nodup_range _)
  have hsub : ((List.range (used.length + 1)).map
      (fun j => URLNameGenerator.candidate orig m (1 + j))) ⊆ used := by
    intro x hx
    simp only [List.mem_map, List.mem_range] at hx
    obtain ⟨j, hj, rfl⟩ := hx
    exact hcon j hj
  have := (List.subperm_of_subset hnd hsub).length_le
  simp at this

theorem generate_spec (used : List Str) (title : Str) (m : Nat) :
    (URLNameGenerator.generate used title m).1 ∉ used ∧
    (URLNameGenerator.generate used title m).2
      = (URLNameGenerator.generate used title m).1 :: used ∧
    ((URLNameGenerator.normalize title m ∉ used ∧
        (URLNameGenerator.generate used title m).1 = URLNameGenerator.normalize title m) ∨
      (URLNameGenerator.normalize title m ∈ used ∧
        ∃ k, 1 ≤ k ∧ k ≤ used.length + 1 ∧
          (URLNameGenerator.generate used title m).1
            = URLNameGenerator.candidate (URLNameGenerator.normalize title m) m k)) := by
  unfold URLNameGenerator.generate
  by_cases h : URLNameGenerator.normalize title m ∈ used
  · simp only [if_pos h]
    obtain ⟨j, hj, hfree⟩ := exists_free_candidate (URLNameGenerator.normalize title m) m used
    obtain ⟨h1, j', hj', heq⟩ :=
      genLoop_spec (URLNameGenerator.normalize title m) m used (used.length + 1) 1
        ⟨j, hj, hfree⟩
    exact ⟨h1, by trivial, Or.inr ⟨h, 1 + j', by omega, by omega, heq⟩⟩
  · simp only [if_neg h]
    exact ⟨h, by trivial, Or.inl ⟨h, by trivial⟩⟩
theorem pyRstripUnd_length_le (s : Str) : (pyRstripUnd s).length ≤ s.length := by
  unfold pyRstripUnd
  calc ((s.reverse.dropWhile (· = '_')).reverse).length
      = (s.reverse.dropWhile (· = '_')).length := List.length_reverse _
    _ ≤ s.reverse.length := List.Sublist.length_le (List.dropWhile_sublist _)
    _ = s.length := List.length_reverse _

theorem normalize_length_le (title : Str) (m : Nat) :
    (URLNameGenerator.normalize title m).length ≤ m := by
  simp only [URLNameGenerator.normalize]
  split
  · exact le_trans (pyRstripUnd_length_le _) (by simp [List.length_take])
  · omega

theorem natDigitsAux_fuel_irrel : ∀ f f' n, n ≤ f → n ≤ f' →
    natDigitsAux f n = natDigitsAux f' n := by
  intro f
  induction f with
  | zero =>
    intro f' n hf hf'
    interval_cases n
    cases f' <;> rfl
  | succ g ih =>
    intro f' n hf hf'
    match n, f', hf' with
    | 0, 0, _ => rfl
    | 0, _ + 1, _ => rfl
    | m + 1, f'' + 1, _ =>
      have e1 : natDigitsAux (g + 1) (m + 1)
          = digitCh ((m + 1) % 10) :: natDigitsAux g ((m + 1) / 10) := rfl
      have e2 : natDigitsAux (f'' + 1) (m + 1)
          = digitCh ((m + 1) % 10) :: natDigitsAux f'' ((m + 1) / 10) := rfl
      have hd : (m + 1) / 10 < m + 1 := Nat.div_lt_self (Nat.succ_pos m) (by norm_num)
      rw [e1, e2, ih f'' ((m + 1) / 10) (by omega) (by omega)]

theorem natDigitsAux_len_pos (n : Nat) (h : 1 ≤ n) :
    1 ≤ (natDigitsAux n n).length := by
  match n, h with
  | m + 1, _ => simp [natDigitsAux]

theorem natDigitsAux_len_step (m : Nat) :
    (natDigitsAux (m + 1) (m + 1)).length
      = 1 + (natDigitsAux ((m + 1) / 10) ((m + 1) / 10)).length := by
  have hd : (m + 1) / 10 < m + 1 := Nat.div_lt_self (Nat.succ_pos m) (by norm_num)
  have e1 : natDigitsAux (m + 1) (m + 1)
      = digitCh ((m + 1) % 10) :: natDigitsAux m ((m + 1) / 10) := rfl
  rw [e1, List.length_cons,
    natDigitsAux_fuel_irrel m ((m + 1) / 10) ((m + 1) / 10) (by omega) le_rfl]
  omega

theorem natDigitsAux_len_mono : ∀ b a, 1 ≤ a → a ≤ b →
    (natDigitsAux a a).length ≤ (natDigitsAux b b).length := by
  intro b
  induction b using Nat.strong_induction_on with
  | _ b ih =>
    intro a ha hab
    match a, ha with
    | m + 1, _ =>
      match b, hab with
      | n + 1, _ =>
        rw [natDigitsAux_len_step m, natDigitsAux_len_step n]
        by_cases hz : (m + 1) / 10 = 0
        · rw [hz]
          simp [natDigitsAux]
        · have h1 : 1 ≤ (m + 1) / 10 := by omega
          have h2 : (m + 1) / 10 ≤ (n + 1) / 10 := Nat.div_le_div_right (by omega)
          have h3 : (n + 1) / 10 < n + 1 := Nat.div_lt_self (Nat.succ_pos n) (by norm_num)
          have := ih ((n + 1) / 10) h3 ((m + 1) / 10) h1 h2
          omega

theorem pyNatStr_len_pos (n : Nat) : 1 ≤ (pyNatStr n).length := by
  unfold pyNatStr
  split
  · simp
  · rename_i hn
    simpa using natDigitsAux_len_pos n (by omega)

theorem pyNatStr_length_mono (a b : Nat) (h : a ≤ b) :
    (pyNatStr a).length ≤ (pyNatStr b).length := by
  by_cases ha : a = 0
  · subst ha
    have h0 : pyNatStr 0 = ['0'] := rfl
    rw [h0]
    simpa using pyNatStr_len_pos b
  · have hb : b ≠ 0 := by omega
    unfold pyNatStr
    rw [if_neg ha, if_neg hb]
    simpa using natDigitsAux_len_mono b a (by omega) h

theorem candidate_length_le (orig : Str) (m k : Nat)
    (h : 1 + (pyNatStr k).length ≤ m) :
    (URLNameGenerator.candidate orig m k).length ≤ m := by
  simp only [URLNameGenerator.candidate]
  unfold pyTake
  have hnn : (0 : Int) ≤ (m : Int) - (('_' :: pyNatStr k).length : Int) := by
    simp only [List.length_cons]
    push_cast
    omega
  rw [if_pos hnn]
  simp only [List.length_append, List.length_cons, List.length_take]
  omega

theorem pyTake_of_le (s : Str) (n : Int) (h : (s.length : Int) ≤ n) :
    pyTake s n = s := by
  unfold pyTake
  rw [if_pos (le_trans (by positivity) h)]
  exact List.take_of_length_le (by omega)

theorem candidate_eq_append (orig : Str) (m k : Nat)
    (h : orig.length + (1 + (pyNatStr k).length) ≤ m) :
    URLNameGenerator.candidate orig m k = orig ++ '_' :: pyNatStr k := by
  simp only [URLNameGenerator.candidate]
  rw [pyTake_of_le]
  simp only [List.length_cons]
  push_cast
  omega
/-- C1 (amended): within one run, `generate` never returns a token that is in
the registry at the moment of the call and registers the returned token
before returning; hence two successive calls with identical titles return
distinct tokens.  The second token is the collision candidate for some
counter `k ≥ 1` — the normalized base *re-truncated* to
`max_length − len("_k")` with `_k` appended — and it equals the first token
with `_k` simply appended exactly when the normalized base is short enough
to leave room for the suffix. -/
theorem C1_generate_fresh_registered_suffixed (used : List Str) (title : Str) (m : Nat) :
    (URLNameGenerator.generate used title m).1 ∉ used ∧
    (URLNameGenerator.generate used title m).2
      = (URLNameGenerator.generate used title m).1 :: used ∧
    (URLNameGenerator.generate
        ((URLNameGenerator.generate used title m).2) title m).1
      ≠ (URLNameGenerator.generate used title m).1 ∧
    ∃ k, 1 ≤ k ∧
      (URLNameGenerator.generate
          ((URLNameGenerator.generate used title m).2) title m).1
        = URLNameGenerator.candidate (URLNameGenerator.normalize title m) m k ∧
      ((URLNameGenerator.normalize title m).length + (1 + (pyNatStr k).length) ≤ m →
        (URLNameGenerator.generate
            ((URLNameGenerator.generate used title m).2) title m).1
          = URLNameGenerator.normalize title m ++ '_' :: pyNatStr k) := by
  obtain ⟨ha1, ha2, ha3⟩ := generate_spec used title m
  obtain ⟨hb1, hb2, hb3⟩ :=
    generate_spec ((URLNameGenerator.generate used title m).2) title m
  have hmem : URLNameGenerator.normalize title m
      ∈ (URLNameGenerator.generate used title m).2 := by
    rw [ha2]
    rcases ha3 with ⟨-, heq⟩ | ⟨hin, -⟩
    · rw [← heq]; exact List.mem_cons_self _ _
    · exact List.mem_cons_of_mem _ hin
  have hneq : (URLNameGenerator.generate
      ((URLNameGenerator.generate used title m).2) title m).1
      ≠ (URLNameGenerator.generate used title m).1 := by
    intro he
    apply hb1
    rw [he, ha2]
    exact List.mem_cons_self _ _
  rcases hb3 with ⟨hnot, -⟩ | ⟨-, k, hk1, -, heq⟩
  · exact absurd hmem hnot
  · exact ⟨ha1, ha2, hneq, k, hk1, heq,
      fun hfit => heq.trans (candidate_eq_append _ _ _ hfit)⟩

/-- C1, counterexample to the claim as stated: with the default maximum
length 50 and a title of fifty `a`s, the second token is not the first with
an appended numeric suffix — the base is re-truncated to 48 characters
first. -/
theorem C1_counterexample :
    (URLNameGenerator.generate [] (List.replicate 50 'a') 50).1
      = List.replicate 50 'a' ∧
    (URLNameGenerator.generate [] (List.replicate 50 'a') 50).2
      = [List.replicate 50 'a'] ∧
    (URLNameGenerator.generate [List.replicate 50 'a']
        (List.replicate 50 'a') 50).1
      = List.replicate 48 'a' ++ S "_1" ∧
    ¬ ∃ k : Nat,
      (URLNameGenerator.generate [List.replicate 50 'a']
          (List.replicate 50 'a') 50).1
        = (URLNameGenerator.generate [] (List.replicate 50 'a') 50).1
            ++ '_' :: pyNatStr k := by
  refine ⟨by decide, by decide, by decide, ?_⟩
  rintro ⟨k, hk⟩
  have h1 : (URLNameGenerator.generate [List.replicate 50 'a']
      (List.replicate 50 'a') 50).1.length = 50 := by decide
  have h2 : (URLNameGenerator.generate [] (List.replicate 50 'a') 50).1.length
      = 50 := by decide
  rw [hk] at h1
  simp only [List.length_append, List.length_cons, h2] at h1
  omega

/-- C1, witness: the amended theorem at a concrete input (empty registry,
title `"Lab"`, maximum 50): the first token is free and registered, the
second call returns `lab_1` — here the base fits, so the suffix is indeed
simply appended. -/
theorem C1_witness :
    (URLNameGenerator.generate [] (S "Lab") 50).1 ∉ ([] : List Str) ∧
    (URLNameGenerator.generate ((URLNameGenerator.generate [] (S "Lab") 50).2)
        (S "Lab") 50).1 ≠ (URLNameGenerator.generate [] (S "Lab") 50).1 := by
  obtain ⟨h1, -, h3, -⟩ := C1_generate_fresh_registered_suffixed [] (S "Lab") 50
  exact ⟨h1, h3⟩

/-- C6 (amended): the generated token's length is at most the configured
maximum whenever the maximum leaves room for the largest possible collision
suffix, i.e. `max_length ≥ 1 + len(str(registrySize + 1))` — in particular
always at the default maximum 50 for any run of fewer than `10^49`
generations.  (The counterexample shows the bound can fail for tiny
maxima.) -/
theorem C6_generate_length_bounded (used : List Str) (title : Str) (m : Nat)
    (h : 1 + (pyNatStr (used.length + 1)).length ≤ m) :
    (URLNameGenerator.generate used title m).1.length ≤ m := by
  obtain ⟨-, -, h3⟩ := generate_spec used title m
  rcases h3 with ⟨-, heq⟩ | ⟨-, k, hk1, hk2, heq⟩
  · rw [heq]; exact normalize_length_le title m
  · rw [heq]
    apply candidate_length_le
    have := pyNatStr_length_mono k (used.length + 1) hk2
    omega

/-- C6, counterexample to the claim as stated: with maximum length 1, a
second `generate("a", 1)` call returns `_1`, of length 2 — the negative
Python slice `original_name[:max_length - len(suffix)]` empties the base and
the appended suffix overshoots the maximum. -/
theorem C6_counterexample :
    (URLNameGenerator.generate [] ['a'] 1).1 = ['a'] ∧
    (URLNameGenerator.generate [['a']] ['a'] 1).1 = S "_1" ∧
    1 < (URLNameGenerator.generate [['a']] ['a'] 1).1.length := by
  refine ⟨by decide, by decide, by decide⟩

/-- C6, witness: the amended bound at a concrete input (registry of one name,
title `"a"`, maximum 50). -/
theorem C6_witness :
    1 + (pyNatStr ([['b']] : List Str).length.succ).length ≤ 50 ∧
    (URLNameGenerator.generate [['b']] ['a'] 50).1.length ≤ 50 :=
  ⟨by decide, C6_generate_length_bounded [['b']] ['a'] 50 (by decide)⟩

/-! ## C4, C7, C9 -/

/-- C4: for a parsed numerical question whose exact correct value list is
`[v]` and whose first non-zero parsed range `[lo, hi]` contains `v`, the
parser keeps the answer `v` (not the range midpoint) and sets the tolerance
to `(hi − lo)/2`; the emitted `numericalresponse` therefore carries answer
`v` with that tolerance. -/
theorem C4_exact_value_with_range_tolerance (v lo hi : ℚ) (ranges : List (ℚ × ℚ))
    (hfind : ranges.find? (fun r => !(r.1 = 0 ∧ r.2 = 0)) = some (lo, hi))
    (hlo : lo ≤ v) (hhi : v ≤ hi) :
    parseNumericalFinalize [v] ranges = ([v], some ((hi - lo) / 2)) ∧
    emitNumerical (parseNumericalFinalize [v] ranges) = some (v, some ((hi - lo) / 2)) := by
  have hmain : parseNumericalFinalize [v] ranges = ([v], some ((hi - lo) / 2)) := by
    unfold parseNumericalFinalize
    rw [hfind]
    have hin : (List.find? (fun a => decide (lo ≤ a) && decide (a ≤ hi)) [v]) = some v := by
      simp [List.find?, hlo, hhi]
    simp [hin]
  exact ⟨hmain, by rw [hmain]; rfl⟩

/-- C4, witness: value 2 with range `[1, 4]`: answer 2 (the midpoint would be
5/2), tolerance 3/2. -/
theorem C4_witness :
    parseNumericalFinalize [2] [((1 : ℚ), (4 : ℚ))] = ([2], some (3 / 2)) ∧
    (2 : ℚ) ≠ (1 + 4) / 2 := by
  have h := C4_exact_value_with_range_tolerance 2 1 4 [((1 : ℚ), (4 : ℚ))]
    (by decide) (by norm_num) (by norm_num)
  refine ⟨?_, by norm_num⟩
  rw [h.1]
  norm_num

/-- C7 (amended): `_load_question_bank` takes the first `n` *raw* items of the
bank and then parses them, dropping failures: the result is parsed questions
in file order (a sublist of all parsed questions of the bank), of length at
most `n`, and it equals "the first `n` parsed questions" exactly when all of
the first `n` raw items parse; a missing bank yields `[]`, and
`_load_banks_from_assessment` only ever appends to the quiz's question
list.  Determinism holds trivially (the loader is a pure function of the
file contents). -/
theorem C7_bank_take_then_parse (items : List (Option Question)) (n : Nat) :
    List.Sublist (loadQuestionBank (some items) n) (items.filterMap id) ∧
    (loadQuestionBank (some items) n).length ≤ n ∧
    ((∀ o ∈ items.take n, o.isSome) →
      loadQuestionBank (some items) n = loadQuestionBankSpec (some items) n) ∧
    loadQuestionBank none n = [] ∧
    (∀ (banks : Str → Option (List (Option Question)))
        (sections : List BankSelection) (qs : List Question),
      ∃ extra, loadBanksFromAssessment banks sections qs = qs ++ extra) := by
  refine ⟨?_, ?_, ?_, rfl, ?_⟩
  · exact List.Sublist.filterMap _ (List.take_sublist n items)
  · calc (loadQuestionBank (some items) n).length
        ≤ (items.take n).length := List.length_filterMap_le _ _
      _ ≤ n := by simp [List.length_take]
  · intro hall
    show (items.take n).filterMap id = (items.filterMap id).take n
    induction items generalizing n with
    | nil => simp
    | cons o rest ih =>
      match n with
      | 0 => simp
      | k + 1 =>
        have ho : o.isSome := hall o (by simp)
        obtain ⟨q, rfl⟩ := Option.isSome_iff_exists.mp ho
        show q :: (rest.take k).filterMap id = q :: (rest.filterMap id).take k
        exact congrArg (q :: ·) (ih k (fun x hx => hall x (List.mem_cons_of_mem _ hx)))
  · intro banks sections
    induction sections with
    | nil => intro qs; exact ⟨[], by simp [loadBanksFromAssessment]⟩
    | cons sec rest ih =>
      intro qs
      match sec with
      | none =>
        obtain ⟨e, he⟩ := ih qs
        have hstep : loadBanksFromAssessment banks (none :: rest) qs
            = loadBanksFromAssessment banks rest qs := rfl
        exact ⟨e, by rw [hstep, he]⟩
      | some (bankId, k) =>
        obtain ⟨e, he⟩ := ih (qs ++ loadQuestionBank (banks bankId) k)
        refine ⟨loadQuestionBank (banks bankId) k ++ e, ?_⟩
        have hstep : loadBanksFromAssessment banks (some (bankId, k) :: rest) qs
            = loadBanksFromAssessment banks rest
                (qs ++ loadQuestionBank (banks bankId) k) := rfl
        rw [hstep, he, List.append_assoc]

/-- C7, counterexample to the claim as stated: a bank holding one unparseable
item followed by a parseable question, with `N = 1`: the loader returns no
questions, while "the first 1 parsed questions in file order" is the one
parseable question. -/
theorem C7_counterexample :
    loadQuestionBank (some [none, some bankQuestion]) 1 = [] ∧
    loadQuestionBankSpec (some [none, some bankQuestion]) 1 = [bankQuestion] ∧
    loadQuestionBank (some [none, some bankQuestion]) 1
      ≠ loadQuestionBankSpec (some [none, some bankQuestion]) 1 := by
  refine ⟨rfl, rfl, by decide⟩

/-- C7, witness: the amended statement at a concrete bank of one parseable
item. -/
theorem C7_witness :
    loadQuestionBank (some [some bankQuestion]) 1
      = loadQuestionBankSpec (some [some bankQuestion]) 1 :=
  (C7_bank_take_then_parse [some bankQuestion] 1).2.2.1 (by decide)

/-- C9: parsing raises the not-found error exactly when the archive path does
not exist, and the format error exactly when (the path exists and, after
extraction,) the top-level manifest is absent; the full conversion produces a
result exactly when neither error fires — an error aborts the run with that
single failure and no conversion output exists. -/
theorem C9_parse_error_classes (fs : CanvasFS) :
    (CanvasParser.parse fs = .error .notFound ↔ fs.pathExists = false) ∧
    (CanvasParser.parse fs = .error .formatError
      ↔ (fs.pathExists = true ∧ fs.manifestPresent = false)) ∧
    (∀ env : ConvEnv, (∃ r, fullConvert fs env = .ok r)
      ↔ (fs.pathExists = true ∧ fs.manifestPresent = true)) ∧
    (∀ env : ConvEnv, ∀ e, fullConvert fs env = .error e
      → CanvasParser.parse fs = .error e) := by
  unfold fullConvert CanvasParser.parse
  rcases fs with ⟨pe, mp, data⟩
  cases pe <;> cases mp <;>
    simp [Except.map]

/-- C9, witness: a concrete filesystem with the archive present and the
manifest missing raises exactly the format error. -/
theorem C9_witness :
    CanvasParser.parse ⟨true, false, c2Data⟩ = .error .formatError :=
  (C9_parse_error_classes ⟨true, false, c2Data⟩).2.1.mpr ⟨rfl, rfl⟩

/-! ## C5, C10 -/

theorem questionTextNodes_eq_nil (q : Question) (hq : q.question_text = []) :
    QTIToCapaConverter.questionTextNodes q = [] := by
  unfold QTIToCapaConverter.questionTextNodes
  rw [if_neg (not_not_intro hq)]

theorem questionTextNodes_eq_p (q : Question) (hq : q.question_text ≠ []) :
    QTIToCapaConverter.questionTextNodes q
      = [XNode.elem (S "p") []
          (some (QTIToCapaConverter.stripHtmlTags q.question_text)) []] := by
  unfold QTIToCapaConverter.questionTextNodes
  rw [if_pos hq]

theorem childNamed_textNodes (q : Question) (x : XNode) (tag : Str)
    (hx : x.tag = tag) (hne : ((S "p") == tag) = false) :
    (XNode.elem (S "problem") [] none
      (QTIToCapaConverter.questionTextNodes q ++ [x])).childNamed tag = some x := by
  have hxt : (x.tag == tag) = true := by simp [hx]
  show List.find? (fun c => c.tag == tag)
      ((QTIToCapaConverter.questionTextNodes q) ++ [x]) = some x
  by_cases hq : q.question_text = []
  · rw [questionTextNodes_eq_nil q hq, List.nil_append,
      List.find?_cons_of_pos (p := fun (c : XNode) => c.tag == tag) _ hxt]
  · have hne' : ((XNode.elem (S "p") []
        (some (QTIToCapaConverter.stripHtmlTags q.question_text)) []).tag == tag)
        = false := hne
    rw [questionTextNodes_eq_p q hq, List.cons_append, List.nil_append,
      List.find?_cons_of_neg (p := fun (c : XNode) => c.tag == tag) _ (by simp [hne']),
      List.find?_cons_of_pos (p := fun (c : XNode) => c.tag == tag) _ hxt]

theorem choice_children_flags (cids : List Str) : ∀ cs : List QChoice,
    (((cs.map (QTIToCapaConverter.choiceNode cids)).filter
        (fun c => c.tag == S "choice")).filterMap (fun c => c.attr (S "correct")))
      = cs.map (fun c =>
          if QTIToCapaConverter.choiceIsCorrect cids c then S "true" else S "false") := by
  intro cs
  induction cs with
  | nil => rfl
  | cons c rest ih =>
    have ht : ((QTIToCapaConverter.choiceNode cids c).tag == S "choice") = true := rfl
    have ha : (QTIToCapaConverter.choiceNode cids c).attr (S "correct")
        = some (if QTIToCapaConverter.choiceIsCorrect cids c then S "true" else S "false") := by
      unfold QTIToCapaConverter.choiceNode XNode.attr XNode.attrs
      by_cases h : QTIToCapaConverter.choiceIsCorrect cids c <;> simp [h, List.lookup]
    rw [List.map_cons,
      List.filter_cons_of_pos (p := fun (c : XNode) => c.tag == S "choice") ht]
    simp only [List.filterMap_cons, ha, ih, List.map_cons]

/-- C10: converting a question record tagged `true_false` produces exactly
the same body document and component kind as converting the identical record
tagged `multiple_choice` (`_convert_true_false` is character-for-character
`_convert_multiple_choice`): both emit a `problem` with a single-select
`choicegroup` of type `MultipleChoice` whose choices are flagged
correct/incorrect by membership in the correct-answer list, so the two
question types are interchangeable at the converter's output. -/
theorem C10_true_false_interchangeable (q : Question) :
    QTIToCapaConverter.convertQuestion { q with qtype := S "true_false" }
      = QTIToCapaConverter.convertQuestion { q with qtype := S "multiple_choice" } ∧
    (QTIToCapaConverter.convertQuestion { q with qtype := S "true_false" }).2
      = S "problem" ∧
    choicegroupAttrs
        (QTIToCapaConverter.convertQuestion { q with qtype := S "true_false" }).1
      = some [(S "type", S "MultipleChoice")] ∧
    choicegroupFlags
        (QTIToCapaConverter.convertQuestion { q with qtype := S "true_false" }).1
      = q.choices.map (fun c =>
          if QTIToCapaConverter.choiceIsCorrect q.correct_answers c
          then S "true" else S "false") := by
  have e1 : QTIToCapaConverter.convertQuestion { q with qtype := S "true_false" }
      = (QBody.tree (QTIToCapaConverter.convertTrueFalse
          { q with qtype := S "true_false" }), S "problem") := rfl
  have hchild := childNamed_textNodes q
    (XNode.elem (S "multiplechoiceresponse") [] none
      [XNode.elem (S "choicegroup") [(S "type", S "MultipleChoice")] none
        (q.choices.map (QTIToCapaConverter.choiceNode q.correct_answers))])
    (S "multiplechoiceresponse") rfl (by decide)
  refine ⟨rfl, rfl, ?_, ?_⟩
  · rw [e1]
    show (((XNode.elem (S "problem") [] none
        (QTIToCapaConverter.questionTextNodes q
          ++ [XNode.elem (S "multiplechoiceresponse") [] none
               [XNode.elem (S "choicegroup") [(S "type", S "MultipleChoice")] none
                 (q.choices.map
                   (QTIToCapaConverter.choiceNode q.correct_answers))]])).childNamed
          (S "multiplechoiceresponse")).bind
        (fun r => r.childNamed (S "choicegroup"))).map XNode.attrs
      = some [(S "type", S "MultipleChoice")]
    rw [hchild]
    rfl
  · rw [e1]
    show (match ((XNode.elem (S "problem") [] none
        (QTIToCapaConverter.questionTextNodes q
          ++ [XNode.elem (S "multiplechoiceresponse") [] none
               [XNode.elem (S "choicegroup") [(S "type", S "MultipleChoice")] none
                 (q.choices.map
                   (QTIToCapaConverter.choiceNode q.correct_answers))]])).childNamed
          (S "multiplechoiceresponse")).bind
        (fun r => r.childNamed (S "choicegroup")) with
      | some g => (g.childrenNamed (S "choice")).filterMap
          (fun c => c.attr (S "correct"))
      | none => [])
      = q.choices.map (fun c =>
          if QTIToCapaConverter.choiceIsCorrect q.correct_answers c
          then S "true" else S "false")
    rw [hchild]
    show (((q.choices.map (QTIToCapaConverter.choiceNode q.correct_answers)).filter
        (fun c => c.tag == S "choice")).filterMap (fun c => c.attr (S "correct")))
      = _
    exact choice_children_flags q.correct_answers q.choices

theorem additional_children_answers (rest : List Str) :
    ((((rest.map (fun ans =>
          XNode.elem (S "additional_answer") [(S "answer", ans)] none []))
        ++ [XNode.elem (S "textline") [(S "size", S "20")] none []]).filter
        (fun c => c.tag == S "additional_answer")).filterMap
        (fun c => c.attr (S "answer")))
      = rest := by
  induction rest with
  | nil => rfl
  | cons a rest ih =>
    have ht : ((XNode.elem (S "additional_answer") [(S "answer", a)] none []).tag
        == S "additional_answer") = true := rfl
    rw [List.map_cons, List.cons_append,
      List.filter_cons_of_pos (p := fun (c : XNode) => c.tag == S "additional_answer") ht,
      List.filterMap_cons]
    simp only [ih]
    rfl


theorem stringresponseAnswer_tree (x : XNode) :
    stringresponseAnswer (QBody.tree x)
      = (x.childNamed (S "stringresponse")).bind (fun r => r.attr (S "answer")) := rfl

theorem additionalAnswers_tree (x : XNode) :
    additionalAnswers (QBody.tree x)
      = (match x.childNamed (S "stringresponse") with
        | some r => (r.childrenNamed (S "additional_answer")).filterMap
            (fun c => c.attr (S "answer"))
        | none => []) := rfl

/-- C5 (amended): a `short_answer` question with a non-empty correct-answer
list converts to a graded `problem` whose exact-match `stringresponse` has
the first correct answer as the `answer` attribute and the remaining ones as
`additional_answer` alternates; with zero correct answers the emitted *body*
is exactly the essay/ORA document (`_convert_essay_ora`), but the component
kind remains `problem` — not the `openassessment` kind the essay branch
reports. -/
theorem C5_short_answer_conversion (q : Question) (hq : q.qtype = S "short_answer") :
    (q.correct_answers = [] →
      (QTIToCapaConverter.convertQuestion q).1
          = QBody.tree (QTIToCapaConverter.convertEssayOra q) ∧
      (QTIToCapaConverter.convertQuestion q).2 = S "problem" ∧
      (QTIToCapaConverter.convertQuestion { q with qtype := S "essay" }).1
          = QBody.tree (QTIToCapaConverter.convertEssayOra q) ∧
      (QTIToCapaConverter.convertQuestion { q with qtype := S "essay" }).2
          = S "openassessment") ∧
    (∀ a rest, q.correct_answers = a :: rest →
      (QTIToCapaConverter.convertQuestion q).2 = S "problem" ∧
      stringresponseAnswer (QTIToCapaConverter.convertQuestion q).1 = some a ∧
      additionalAnswers (QTIToCapaConverter.convertQuestion q).1 = rest) := by
  have e1 : QTIToCapaConverter.convertQuestion q
      = (QBody.tree (QTIToCapaConverter.convertShortAnswer q), S "problem") := by
    unfold QTIToCapaConverter.convertQuestion
    rw [hq]
    rfl
  have e2 : QTIToCapaConverter.convertQuestion { q with qtype := S "essay" }
      = (QBody.tree (QTIToCapaConverter.convertEssayOra q), S "openassessment") := rfl
  constructor
  · intro h0
    have hsa : QTIToCapaConverter.convertShortAnswer q
        = QTIToCapaConverter.convertEssayOra q := by
      unfold QTIToCapaConverter.convertShortAnswer
      rw [h0]
    rw [e1, e2, hsa]
    exact ⟨rfl, rfl, rfl, rfl⟩
  · intro a rest ha
    have hsa : QTIToCapaConverter.convertShortAnswer q
        = XNode.elem (S "problem") [] none
            (QTIToCapaConverter.questionTextNodes q
              ++ [XNode.elem (S "stringresponse")
                   [(S "answer", a), (S "type", S "ci")] none
                   ((rest.map (fun ans =>
                      XNode.elem (S "additional_answer") [(S "answer", ans)] none []))
                    ++ [XNode.elem (S "textline") [(S "size", S "20")] none []])]) := by
      unfold QTIToCapaConverter.convertShortAnswer
      rw [ha]
    have hchild := childNamed_textNodes q
      (XNode.elem (S "stringresponse") [(S "answer", a), (S "type", S "ci")] none
        ((rest.map (fun ans =>
            XNode.elem (S "additional_answer") [(S "answer", ans)] none []))
         ++ [XNode.elem (S "textline") [(S "size", S "20")] none []]))
      (S "stringresponse") rfl (by decide)
    refine ⟨by rw [e1], ?_, ?_⟩
    · show stringresponseAnswer (QTIToCapaConverter.convertQuestion q).1 = some a
      rw [e1]
      show stringresponseAnswer
        (QBody.tree (QTIToCapaConverter.convertShortAnswer q)) = some a
      rw [hsa, stringresponseAnswer_tree, hchild]
      rfl
    · show additionalAnswers (QTIToCapaConverter.convertQuestion q).1 = rest
      rw [e1]
      show additionalAnswers
        (QBody.tree (QTIToCapaConverter.convertShortAnswer q)) = rest
      rw [hsa, additionalAnswers_tree, hchild]
      exact additional_children_answers rest

/-- C5, counterexample to the claim as stated: a `short_answer` question with
zero correct answers converts with component kind `problem`, while the
essay/open-response conversion of the very same record reports kind
`openassessment` — the body degrades to the ORA document, the kind does
not. -/
theorem C5_counterexample :
    (QTIToCapaConverter.convertQuestion saQuestionNoAnswers).2 = S "problem" ∧
    (QTIToCapaConverter.convertQuestion
        { saQuestionNoAnswers with qtype := S "essay" }).2 = S "openassessment" ∧
    (QTIToCapaConverter.convertQuestion saQuestionNoAnswers).1
      = (QTIToCapaConverter.convertQuestion
          { saQuestionNoAnswers with qtype := S "essay" }).1 ∧
    S "problem" ≠ S "openassessment" :=
  ⟨rfl, rfl, rfl, by decide⟩

/-- C5, witness: the amended theorem at the concrete two-answer question:
primary answer `Paris`, alternate `paris city`, kind `problem`. -/
theorem C5_witness :
    (QTIToCapaConverter.convertQuestion saQuestion).2 = S "problem" ∧
    stringresponseAnswer (QTIToCapaConverter.convertQuestion saQuestion).1
      = some (S "Paris") ∧
    additionalAnswers (QTIToCapaConverter.convertQuestion saQuestion).1
      = [S "paris city"] :=
  (C5_short_answer_conversion saQuestion rfl).2 (S "Paris") [S "paris city"] rfl

/-! ## Pipeline state lemmas (C2, C3, C8) -/

theorem lookup_mem {l : List (Str × Str)} {a b : Str} (h : l.lookup a = some b) :
    (a, b) ∈ l := by
  induction l with
  | nil => simp [List.lookup] at h
  | cons p rest ih =>
    rcases p with ⟨k, v⟩
    rcases he : a == k with - | -
    · rw [List.lookup, he] at h
      exact List.mem_cons_of_mem _ (ih h)
    · rw [List.lookup, he] at h
      have hk : a = k := by simpa using he
      have hv : v = b := by simpa using h
      subst hk
      subst hv
      exact List.mem_cons_self _ _

theorem mint_spec (st : ConvState) (t : Str) :
    (mint st t).1 ∉ st.used ∧
    (mint st t).2.used = (mint st t).1 :: st.used ∧
    (mint st t).2.itemIdMap = st.itemIdMap ∧
    (mint st t).2.identifierMap = st.identifierMap ∧
    (mint st t).2.skipped = st.skipped ∧
    (mint st t).2.timed = st.timed := by
  obtain ⟨h1, h2, -⟩ := generate_spec st.used t 50
  exact ⟨h1, h2, rfl, rfl, rfl, rfl⟩

theorem itemVertUrl_spec (st : ConvState) (it : Item) :
    ((itemVertUrl st it).2 = st ∧ itemAvail st it = some (itemVertUrl st it).1) ∨
    ((itemVertUrl st it).1 ∉ st.used ∧
      (itemVertUrl st it).2.used = (itemVertUrl st it).1 :: st.used ∧
      (itemVertUrl st it).2.itemIdMap = st.itemIdMap ∧
      (itemVertUrl st it).2.skipped = st.skipped ∧
      (itemVertUrl st it).2.timed = st.timed) := by
  rcases hid : it.truthyId with - | iid
  · obtain ⟨h1, h2, h3, -, h5, h6⟩ := mint_spec st it.title
    simp only [itemVertUrl, hid]
    exact Or.inr ⟨h1, h2, h3, h5, h6⟩
  · rcases hlk : st.itemIdMap.lookup iid with - | u
    · obtain ⟨h1, h2, h3, -, h5, h6⟩ := mint_spec st it.title
      simp only [itemVertUrl, hid, hlk]
      exact Or.inr ⟨h1, h2, h3, h5, h6⟩
    · simp only [itemVertUrl, itemAvail, hid, hlk, Option.some_bind]
      exact Or.inl ⟨trivial, trivial⟩

theorem itemAvail_congr (st st' : ConvState) (it : Item)
    (h : st'.itemIdMap = st.itemIdMap) : itemAvail st' it = itemAvail st it := by
  unfold itemAvail
  rw [h]

theorem itemsAvail_congr (st st' : ConvState) (its : List Item)
    (h : st'.itemIdMap = st.itemIdMap) : itemsAvail st' its = itemsAvail st its := by
  unfold itemsAvail
  exact List.filterMap_congr (fun it _ => itemAvail_congr st st' it h)

theorem modulesAvail_congr (st st' : ConvState) (ms : List Canvas.Module)
    (h : st'.itemIdMap = st.itemIdMap) : modulesAvail st' ms = modulesAvail st ms := by
  unfold modulesAvail
  exact List.flatMap_congr (fun m _ => itemsAvail_congr st st' m.items h)

theorem itemsAvail_cons (st : ConvState) (it : Item) (its : List Item) :
    itemsAvail st (it :: its)
      = (itemAvail st it).toList ++ itemsAvail st its := by
  unfold itemsAvail
  rcases h : itemAvail st it with - | u <;>
    simp [List.filterMap_cons, h]

theorem modulesAvail_cons (st : ConvState) (m : Canvas.Module) (ms : List Canvas.Module) :
    modulesAvail st (m :: ms) = itemsAvail st m.items ++ modulesAvail st ms := by
  unfold modulesAvail
  simp [List.flatMap_cons]

theorem quizFold_spec (it : Item) (qs : List Question) (acc : List ComponentIR)
    (st : ConvState) (i : Nat)
    (hN : (acc.map (fun c => c.url_name)).Nodup)
    (hmem : ∀ u ∈ acc.map (fun c => c.url_name), u ∈ st.used) :
    (qs.foldl (quizFoldStep it) (acc, st, i)).2.1.itemIdMap = st.itemIdMap ∧
    (∃ d, (qs.foldl (quizFoldStep it) (acc, st, i)).2.1.used = d ++ st.used) ∧
    ((qs.foldl (quizFoldStep it) (acc, st, i)).1.map (fun c => c.url_name)).Nodup ∧
    (∀ u ∈ (qs.foldl (quizFoldStep it) (acc, st, i)).1.map (fun c => c.url_name),
      u ∈ (qs.foldl (quizFoldStep it) (acc, st, i)).2.1.used) ∧
    (∀ u ∈ (qs.foldl (quizFoldStep it) (acc, st, i)).1.map (fun c => c.url_name),
      u ∈ acc.map (fun c => c.url_name) ∨ u ∉ st.used) := by
  induction qs generalizing acc st i with
  | nil =>
    exact ⟨rfl, ⟨[], rfl⟩, hN, fun u hu => hmem u hu, fun u hu => Or.inl hu⟩
  | cons q rest ih =>
    obtain ⟨hfresh, hused, hmap, -, -, -⟩ :=
      mint_spec st (it.title ++ S "_q" ++ pyNatStr i)
    have hstep : (q :: rest).foldl (quizFoldStep it) (acc, st, i)
        = rest.foldl (quizFoldStep it)
            ((quizFoldStep it (acc, st, i) q).1,
             (quizFoldStep it (acc, st, i) q).2.1,
             (quizFoldStep it (acc, st, i) q).2.2) := rfl
    have hfold : (quizFoldStep it (acc, st, i) q).1
        = acc ++ [({ ctype := (QTIToCapaConverter.convertQuestion q).2,
                     display_name :=
                       if q.title ≠ [] then q.title else S "Question " ++ pyNatStr i,
                     url_name :=
                       (mint st (it.title ++ S "_q" ++ pyNatStr i)).1 } : ComponentIR)] := rfl
    have hst1 : (quizFoldStep it (acc, st, i) q).2.1
        = (mint st (it.title ++ S "_q" ++ pyNatStr i)).2 := rfl
    have hmapurl : (quizFoldStep it (acc, st, i) q).1.map (fun c => c.url_name)
        = acc.map (fun c => c.url_name)
            ++ [(mint st (it.title ++ S "_q" ++ pyNatStr i)).1] := by
      rw [hfold, List.map_append]
      rfl
    have hN' : ((quizFoldStep it (acc, st, i) q).1.map (fun c => c.url_name)).Nodup := by
      rw [hmapurl]
      refine List.Nodup.append hN (List.nodup_singleton _) ?_
      intro a ha hb
      have hb' : a = (mint st (it.title ++ S "_q" ++ pyNatStr i)).1 := by simpa using hb
      subst hb'
      exact hfresh (hmem _ ha)
    have hmem' : ∀ u ∈ (quizFoldStep it (acc, st, i) q).1.map (fun c => c.url_name),
        u ∈ (quizFoldStep it (acc, st, i) q).2.1.used := by
      intro u hu
      rw [hmapurl] at hu
      rw [hst1, hused]
      rcases List.mem_append.1 hu with h | h
      · exact List.mem_cons_of_mem _ (hmem u h)
      · have : u = (mint st (it.title ++ S "_q" ++ pyNatStr i)).1 := by simpa using h
        subst this
        exact List.mem_cons_self _ _
    obtain ⟨i1, ⟨d, i2⟩, i3, i4, i5⟩ :=
      ih (quizFoldStep it (acc, st, i) q).1 (quizFoldStep it (acc, st, i) q).2.1
        (quizFoldStep it (acc, st, i) q).2.2 hN' hmem'
    rw [hstep]
    refine ⟨?_, ⟨d ++ [(mint st (it.title ++ S "_q" ++ pyNatStr i)).1], ?_⟩, i3, i4, ?_⟩
    · rw [i1, hst1, hmap]
    · rw [i2, hst1, hused]
      simp
    · intro u hu
      rcases i5 u hu with h | h
      · rw [hmapurl] at h
        rcases List.mem_append.1 h with h' | h'
        · exact Or.inl h'
        · have : u = (mint st (it.title ++ S "_q" ++ pyNatStr i)).1 := by simpa using h'
          subst this
          exact Or.inr hfresh
      · rw [hst1, hused] at h
        exact Or.inr (fun hx => h (List.mem_cons_of_mem _ hx))

theorem convertQuiz_spec (env : ConvEnv) (st : ConvState) (it : Item) :
    (convertQuiz env st it).2.itemIdMap = st.itemIdMap ∧
    (∃ d, (convertQuiz env st it).2.used = d ++ st.used) ∧
    ((convertQuiz env st it).1.map (fun c => c.url_name)).Nodup ∧
    (∀ u ∈ (convertQuiz env st it).1.map (fun c => c.url_name),
      u ∈ (convertQuiz env st it).2.used ∧ u ∉ st.used) := by
  simp only [convertQuiz]
  split
  · exact ⟨rfl, ⟨[], rfl⟩, by simp, by simp⟩
  · split
    · exact ⟨rfl, ⟨[], rfl⟩, by simp, by simp⟩
    · rename_i qd heq
      split
      · exact ⟨rfl, ⟨[], rfl⟩, by simp, by simp⟩
      · obtain ⟨i1, i2, i3, i4, i5⟩ :=
          quizFold_spec it qd.questions [] st 1 (by simp) (by simp)
        have hfr : ∀ u ∈ (qd.questions.foldl (quizFoldStep it) ([], st, 1)).1.map
            (fun c => c.url_name), u ∉ st.used := by
          intro u hu
          rcases i5 u hu with h | h
          · simp at h
          · exact h
        split
        · split
          · exact ⟨i1, i2, i3, fun u hu => ⟨i4 u hu, hfr u hu⟩⟩
          · exact ⟨i1, i2, i3, fun u hu => ⟨i4 u hu, hfr u hu⟩⟩
        · exact ⟨i1, i2, i3, fun u hu => ⟨i4 u hu, hfr u hu⟩⟩

theorem mint_branch (st : ConvState) (t : Str) :
    (mint st t).2.itemIdMap = st.itemIdMap ∧
    (∃ d, (mint st t).2.used = d ++ st.used) ∧
    [(mint st t).1].Nodup ∧
    (∀ u ∈ [(mint st t).1], u ∈ (mint st t).2.used ∧ u ∉ st.used) := by
  obtain ⟨hfresh, hused, hmap, -, -, -⟩ := mint_spec st t
  refine ⟨hmap, ⟨[(mint st t).1], by rw [hused]; rfl⟩, List.nodup_singleton _, ?_⟩
  intro u hu
  have : u = (mint st t).1 := by simpa using hu
  subst this
  exact ⟨by rw [hused]; exact List.mem_cons_self _ _, hfresh⟩

theorem convertItemComponents_spec (env : ConvEnv) (st : ConvState) (it : Item) (ct : Str) :
    (convertItemComponents env st it ct).2.2.itemIdMap = st.itemIdMap ∧
    (∃ d, (convertItemComponents env st it ct).2.2.used = d ++ st.used) ∧
    ((convertItemComponents env st it ct).1.map (fun c => c.url_name)).Nodup ∧
    (∀ u ∈ (convertItemComponents env st it ct).1.map (fun c => c.url_name),
      u ∈ (convertItemComponents env st it ct).2.2.used ∧ u ∉ st.used) := by
  simp only [convertItemComponents]
  split
  · -- WikiPage branch
    split
    · split
      · exact mint_branch st (it.title ++ S "_html")
      · exact ⟨rfl, ⟨[], rfl⟩, by simp, by simp⟩
    · exact ⟨rfl, ⟨[], rfl⟩, by simp, by simp⟩
  · split
    · -- Assignment branch
      split
      · exact ⟨rfl, ⟨[], rfl⟩, by simp, by simp⟩
      · exact mint_branch st (it.title ++ S "_assignment")
    · split
      · -- Quiz branch
        obtain ⟨i1, i2, i3, i4⟩ := convertQuiz_spec env st it
        exact ⟨i1, i2, i3, i4⟩
      · split
        · exact ⟨rfl, ⟨[], rfl⟩, by simp, by simp⟩
        · split
          · exact ⟨rfl, ⟨[], rfl⟩, by simp, by simp⟩
          · split
            · exact ⟨rfl, ⟨[], rfl⟩, by simp, by simp⟩
            · split
              · exact ⟨rfl, ⟨[], rfl⟩, by simp, by simp⟩
              · exact ⟨rfl, ⟨[], rfl⟩, by simp, by simp⟩

theorem convertItemToVertical_components (env : ConvEnv) (st : ConvState) (it : Item) :
    ∀ v, (convertItemToVertical env st it).1 = some v → v.components ≠ [] := by
  intro v hv
  simp only [convertItemToVertical] at hv
  split at hv
  · exact absurd hv (by simp)
  · rename_i h
    cases hv
    intro hc
    have hc' : (convertItemComponents env (itemVertUrl st it).2 it
        (itemContentType env it)).1 = [] := hc
    exact h (by rw [hc']; rfl)

theorem optVertUrls_cases (env : ConvEnv) (st : ConvState) (it : Item) :
    optVertUrls (convertItemToVertical env st it).1 = []
    ∨ optVertUrls (convertItemToVertical env st it).1
      = (itemVertUrl st it).1 ::
        (convertItemComponents env (itemVertUrl st it).2 it
          (itemContentType env it)).1.map (fun c => c.url_name) := by
  by_cases h : (convertItemComponents env (itemVertUrl st it).2 it
      (itemContentType env it)).1.isEmpty = true
  · left
    have hn : (convertItemToVertical env st it).1 = none := by
      simp only [convertItemToVertical]
      rw [if_pos h]
    rw [hn]
    rfl
  · right
    have hs : (convertItemToVertical env st it).1
        = some { display_name := (convertItemComponents env (itemVertUrl st it).2 it
                   (itemContentType env it)).2.1,
                 url_name := (itemVertUrl st it).1,
                 components := (convertItemComponents env (itemVertUrl st it).2 it
                   (itemContentType env it)).1,
                 published := it.workflow_state = S "active" } := by
      simp only [convertItemToVertical]
      rw [if_neg h]
    rw [hs]
    rfl

theorem convertItemToVertical_url (env : ConvEnv) (st : ConvState) (it : Item) :
    ∀ v, (convertItemToVertical env st it).1 = some v →
      v.url_name = (itemVertUrl st it).1 := by
  intro v hv
  simp only [convertItemToVertical] at hv
  split at hv
  · exact absurd hv (by simp)
  · cases hv
    rfl

theorem convertItemToVertical_spec (env : ConvEnv) (st : ConvState) (it : Item)
    (havail : ∀ u, itemAvail st it = some u → u ∈ st.used) :
    (convertItemToVertical env st it).2.itemIdMap = st.itemIdMap ∧
    (∃ d, (convertItemToVertical env st it).2.used = d ++ st.used) ∧
    (optVertUrls (convertItemToVertical env st it).1).Nodup ∧
    (∀ u ∈ optVertUrls (convertItemToVertical env st it).1,
      u ∈ (convertItemToVertical env st it).2.used) ∧
    (∀ u ∈ optVertUrls (convertItemToVertical env st it).1,
      u ∉ st.used ∨ itemAvail st it = some u) := by
  obtain ⟨c1, ⟨d, c2⟩, c3, c4⟩ :=
    convertItemComponents_spec env (itemVertUrl st it).2 it (itemContentType env it)
  have hr2 : (convertItemToVertical env st it).2
      = (convertItemComponents env (itemVertUrl st it).2 it (itemContentType env it)).2.2 := rfl
  rcases itemVertUrl_spec st it with ⟨h1, h2⟩ | ⟨h1, h2, h3, -, -⟩
  · -- reuse of the upfront map entry: the state is unchanged
    have hused : (convertItemToVertical env st it).2.used = d ++ st.used := by
      rw [hr2, c2, h1]
    have hvmem : (itemVertUrl st it).1 ∈ st.used := havail _ h2
    have hfr : ∀ u ∈ (convertItemComponents env (itemVertUrl st it).2 it
        (itemContentType env it)).1.map (fun c => c.url_name), u ∉ st.used := by
      intro u hu
      have := (c4 u hu).2
      rw [h1] at this
      exact this
    refine ⟨by rw [hr2, c1, h1], ⟨d, hused⟩, ?_, ?_, ?_⟩
    · rcases optVertUrls_cases env st it with ho | ho <;> rw [ho]
      · exact List.nodup_nil
      · exact List.nodup_cons.mpr ⟨fun hmem => hfr _ hmem hvmem, c3⟩
    · intro u hu
      rcases optVertUrls_cases env st it with ho | ho <;> rw [ho] at hu
      · simp at hu
      · rcases List.mem_cons.1 hu with hh | hh
        · subst hh
          rw [hused]
          exact List.mem_append_right d hvmem
        · exact (c4 u hh).1
    · intro u hu
      rcases optVertUrls_cases env st it with ho | ho <;> rw [ho] at hu
      · simp at hu
      · rcases List.mem_cons.1 hu with hh | hh
        · subst hh
          exact Or.inr h2
        · exact Or.inl (hfr u hh)
  · -- a fresh url_name was minted for the vertical
    have hsub : ∀ u ∈ st.used, u ∈ (itemVertUrl st it).2.used := by
      intro u hu
      rw [h2]
      exact List.mem_cons_of_mem _ hu
    have hused : (convertItemToVertical env st it).2.used
        = (d ++ [(itemVertUrl st it).1]) ++ st.used := by
      rw [hr2, c2, h2]
      simp
    have hvmem : (itemVertUrl st it).1 ∈ (itemVertUrl st it).2.used := by
      rw [h2]
      exact List.mem_cons_self _ _
    have hfr : ∀ u ∈ (convertItemComponents env (itemVertUrl st it).2 it
        (itemContentType env it)).1.map (fun c => c.url_name),
        u ∉ (itemVertUrl st it).2.used :=
      fun u hu => (c4 u hu).2
    refine ⟨by rw [hr2, c1, h3], ⟨d ++ [(itemVertUrl st it).1], hused⟩, ?_, ?_, ?_⟩
    · rcases optVertUrls_cases env st it with ho | ho <;> rw [ho]
      · exact List.nodup_nil
      · exact List.nodup_cons.mpr ⟨fun hmem => hfr _ hmem hvmem, c3⟩
    · intro u hu
      rcases optVertUrls_cases env st it with ho | ho <;> rw [ho] at hu
      · simp at hu
      · rcases List.mem_cons.1 hu with hh | hh
        · subst hh
          rw [hr2, c2]
          exact List.mem_append_right d hvmem
        · exact (c4 u hh).1
    · intro u hu
      rcases optVertUrls_cases env st it with ho | ho <;> rw [ho] at hu
      · simp at hu
      · rcases List.mem_cons.1 hu with hh | hh
        · subst hh
          exact Or.inl h1
        · exact Or.inl (fun hx => hfr u hh (hsub u hx))

theorem inv_transfer (A rest got avail used usedN : List Str)
    (hN : (A ++ (avail ++ rest)).Nodup)
    (hmem : ∀ u ∈ A ++ (avail ++ rest), u ∈ used)
    (hgN : got.Nodup)
    (hgU : ∀ u ∈ got, u ∈ usedN)
    (hgF : ∀ u ∈ got, u ∉ used ∨ u ∈ avail)
    (hext : ∀ u ∈ used, u ∈ usedN) :
    ((A ++ got) ++ rest).Nodup ∧ (∀ u ∈ (A ++ got) ++ rest, u ∈ usedN) := by
  obtain ⟨hA, har, hdisj⟩ := List.nodup_append.1 hN
  obtain ⟨hav, hrest, hdisj2⟩ := List.nodup_append.1 har
  constructor
  · refine List.nodup_append.2 ⟨List.nodup_append.2 ⟨hA, hgN, ?_⟩, hrest, ?_⟩
    · intro a haA hag
      rcases hgF a hag with h | h
      · exact h (hmem a (List.mem_append_left _ haA))
      · exact hdisj haA (List.mem_append_left _ h)
    · intro a haAg harest
      rcases List.mem_append.1 haAg with h | h
      · exact hdisj h (List.mem_append_right _ harest)
      · rcases hgF a h with h' | h'
        · exact h' (hmem a (List.mem_append_right _ (List.mem_append_right _ harest)))
        · exact hdisj2 h' harest
  · intro u hu
    rcases List.mem_append.1 hu with h | h
    · rcases List.mem_append.1 h with h' | h'
      · exact hext u (hmem u (List.mem_append_left _ h'))
      · exact hgU u h'
    · exact hext u (hmem u (List.mem_append_right _ (List.mem_append_right _ h)))

theorem itemsFold_spec (env : ConvEnv) (its : List Item) (vs0 : List VerticalIR)
    (st : ConvState) (A rest : List Str)
    (hN : ((A ++ vs0.flatMap VerticalIR.mintedUrls) ++ (itemsAvail st its ++ rest)).Nodup)
    (hmem : ∀ u ∈ (A ++ vs0.flatMap VerticalIR.mintedUrls) ++ (itemsAvail st its ++ rest),
      u ∈ st.used) :
    (its.foldl (itemFoldStep env) (vs0, st)).2.itemIdMap = st.itemIdMap ∧
    (∃ d, (its.foldl (itemFoldStep env) (vs0, st)).2.used = d ++ st.used) ∧
    ((A ++ (its.foldl (itemFoldStep env) (vs0, st)).1.flatMap VerticalIR.mintedUrls)
      ++ rest).Nodup ∧
    (∀ u ∈ (A ++ (its.foldl (itemFoldStep env) (vs0, st)).1.flatMap VerticalIR.mintedUrls)
      ++ rest, u ∈ (its.foldl (itemFoldStep env) (vs0, st)).2.used) := by
  induction its generalizing vs0 st with
  | nil =>
    exact ⟨rfl, ⟨[], rfl⟩, hN, hmem⟩
  | cons it its ih =>
    have hacc : (itemFoldStep env (vs0, st) it).1.flatMap VerticalIR.mintedUrls
        = vs0.flatMap VerticalIR.mintedUrls
          ++ optVertUrls (convertItemToVertical env st it).1 := by
      simp only [itemFoldStep]
      rcases h : (convertItemToVertical env st it).1 with - | v
      · simp [optVertUrls]
      · simp [optVertUrls]
    have hst : (itemFoldStep env (vs0, st) it).2 = (convertItemToVertical env st it).2 := by
      simp only [itemFoldStep]
      rcases h : (convertItemToVertical env st it).1 with - | v <;> rfl
    have havail : ∀ u, itemAvail st it = some u → u ∈ st.used := fun u hu =>
      hmem u (by
        refine List.mem_append_right _ (List.mem_append_left _ ?_)
        rw [itemsAvail_cons, hu]
        simp)
    obtain ⟨s1, ⟨d1, s2⟩, s3, s4, s5⟩ := convertItemToVertical_spec env st it havail
    have hN1 : ((A ++ vs0.flatMap VerticalIR.mintedUrls)
        ++ ((itemAvail st it).toList ++ (itemsAvail st its ++ rest))).Nodup := by
      have h := hN
      rw [itemsAvail_cons] at h
      simpa [List.append_assoc] using h
    have hmem1 : ∀ u ∈ (A ++ vs0.flatMap VerticalIR.mintedUrls)
        ++ ((itemAvail st it).toList ++ (itemsAvail st its ++ rest)), u ∈ st.used := by
      intro u hu
      apply hmem
      rw [itemsAvail_cons]
      simp only [List.append_assoc] at hu ⊢
      exact hu
    have hgF : ∀ u ∈ optVertUrls (convertItemToVertical env st it).1,
        u ∉ st.used ∨ u ∈ (itemAvail st it).toList := fun u hu =>
      (s5 u hu).imp id (fun h => by rw [h]; simp)
    have hext : ∀ u ∈ st.used, u ∈ (convertItemToVertical env st it).2.used := by
      intro u hu
      rw [s2]
      exact List.mem_append_right d1 hu
    obtain ⟨t1, t2⟩ := inv_transfer (A ++ vs0.flatMap VerticalIR.mintedUrls)
      (itemsAvail st its ++ rest) (optVertUrls (convertItemToVertical env st it).1)
      ((itemAvail st it).toList) st.used (convertItemToVertical env st it).2.used
      hN1 hmem1 s3 s4 hgF hext
    have hmap' : (itemFoldStep env (vs0, st) it).2.itemIdMap = st.itemIdMap := by
      rw [hst]
      exact s1
    have hIA : itemsAvail (itemFoldStep env (vs0, st) it).2 its = itemsAvail st its :=
      itemsAvail_congr st _ its hmap'
    have hN2 : ((A ++ (itemFoldStep env (vs0, st) it).1.flatMap VerticalIR.mintedUrls)
        ++ (itemsAvail (itemFoldStep env (vs0, st) it).2 its ++ rest)).Nodup := by
      rw [hacc, hIA]
      simpa [List.append_assoc] using t1
    have hmem2 : ∀ u ∈ (A ++ (itemFoldStep env (vs0, st) it).1.flatMap VerticalIR.mintedUrls)
        ++ (itemsAvail (itemFoldStep env (vs0, st) it).2 its ++ rest),
        u ∈ (itemFoldStep env (vs0, st) it).2.used := by
      rw [hacc, hIA, hst]
      intro u hu
      apply t2
      simp only [List.append_assoc] at hu ⊢
      exact hu
    obtain ⟨I1, ⟨d2, I2⟩, I3, I4⟩ :=
      ih (itemFoldStep env (vs0, st) it).1 (itemFoldStep env (vs0, st) it).2 hN2 hmem2
    have hre : (it :: its).foldl (itemFoldStep env) (vs0, st)
        = its.foldl (itemFoldStep env)
            ((itemFoldStep env (vs0, st) it).1, (itemFoldStep env (vs0, st) it).2) := rfl
    rw [hre]
    refine ⟨I1.trans hmap', ⟨d2 ++ d1, ?_⟩, I3, I4⟩
    rw [I2, hst, s2, List.append_assoc]

theorem itemsFold_components (env : ConvEnv) (its : List Item) (vs0 : List VerticalIR)
    (st : ConvState) (h0 : ∀ v ∈ vs0, v.components ≠ []) :
    ∀ v ∈ (its.foldl (itemFoldStep env) (vs0, st)).1, v.components ≠ [] := by
  induction its generalizing vs0 st with
  | nil => exact h0
  | cons it its ih =>
    apply ih
    intro v hv
    simp only [itemFoldStep] at hv
    split at hv
    · rename_i v' heq
      rcases List.mem_append.1 hv with h | h
      · exact h0 v h
      · have : v = v' := by simpa using h
        subst this
        exact convertItemToVertical_components env st it v heq
    · exact h0 v hv

theorem convertModuleToChapter_spec (env : ConvEnv) (m : Canvas.Module) (prereq : Option Str)
    (st : ConvState) (A rest : List Str)
    (hN : (A ++ (itemsAvail st m.items ++ rest)).Nodup)
    (hmem : ∀ u ∈ A ++ (itemsAvail st m.items ++ rest), u ∈ st.used) :
    (convertModuleToChapter env m prereq st).2.itemIdMap = st.itemIdMap ∧
    (∃ d, (convertModuleToChapter env m prereq st).2.used = d ++ st.used) ∧
    ((A ++ (convertModuleToChapter env m prereq st).1.mintedUrls) ++ rest).Nodup ∧
    (∀ u ∈ (A ++ (convertModuleToChapter env m prereq st).1.mintedUrls) ++ rest,
      u ∈ (convertModuleToChapter env m prereq st).2.used) := by
  obtain ⟨hfresh, hused, hmap, -, -, -⟩ := mint_spec st m.title
  have hext : ∀ u ∈ st.used, u ∈ (mint st m.title).2.used := by
    intro u hu
    rw [hused]
    exact List.mem_cons_of_mem _ hu
  obtain ⟨t1, t2⟩ := inv_transfer A (itemsAvail st m.items ++ rest) [(mint st m.title).1]
    [] st.used (mint st m.title).2.used hN hmem (List.nodup_singleton _)
    (fun u hu => by
      have : u = (mint st m.title).1 := by simpa using hu
      subst this
      rw [hused]
      exact List.mem_cons_self _ _)
    (fun u hu => by
      have : u = (mint st m.title).1 := by simpa using hu
      subst this
      exact Or.inl hfresh)
    hext
  have hIA : itemsAvail (mint st m.title).2 m.items = itemsAvail st m.items :=
    itemsAvail_congr st _ m.items hmap
  have hN2 : (((A ++ [(mint st m.title).1]) ++ ([] : List VerticalIR).flatMap VerticalIR.mintedUrls)
      ++ (itemsAvail (mint st m.title).2 m.items ++ rest)).Nodup := by
    rw [hIA]
    simpa using t1
  have hmem2 : ∀ u ∈ ((A ++ [(mint st m.title).1])
      ++ ([] : List VerticalIR).flatMap VerticalIR.mintedUrls)
      ++ (itemsAvail (mint st m.title).2 m.items ++ rest), u ∈ (mint st m.title).2.used := by
    intro u hu
    apply t2
    rw [hIA] at hu
    simpa using hu
  obtain ⟨I1, ⟨d2, I2⟩, I3, I4⟩ :=
    itemsFold_spec env m.items [] (mint st m.title).2 (A ++ [(mint st m.title).1]) rest hN2 hmem2
  have hchm : (convertModuleToChapter env m prereq st).1.mintedUrls
      = (mint st m.title).1
        :: ((m.items.foldl (itemFoldStep env) ([], (mint st m.title).2)).1.flatMap
            VerticalIR.mintedUrls) := by
    simp [convertModuleToChapter, ChapterIR.mintedUrls]
  have hst2 : (convertModuleToChapter env m prereq st).2
      = (m.items.foldl (itemFoldStep env) ([], (mint st m.title).2)).2 := rfl
  refine ⟨?_, ⟨d2 ++ [(mint st m.title).1], ?_⟩, ?_, ?_⟩
  · rw [hst2, I1, hmap]
  · rw [hst2, I2, hused]
    simp
  · rw [hchm]
    simp only [List.append_assoc] at I3 ⊢
    simpa using I3
  · intro u hu
    rw [hst2]
    apply I4
    rw [hchm] at hu
    simp only [List.append_assoc] at hu ⊢
    simpa using hu

theorem convertModuleToChapter_seq (env : ConvEnv) (m : Canvas.Module) (prereq : Option Str)
    (st : ConvState) :
    ∀ sq ∈ (convertModuleToChapter env m prereq st).1.sequentials,
      sq.url_name = (convertModuleToChapter env m prereq st).1.url_name ++ S "_content"
      ∧ ∀ v ∈ sq.verticals, v.components ≠ [] := by
  intro sq hsq
  have hsq' : sq = { display_name := m.title,
                     url_name := (mint st m.title).1 ++ S "_content",
                     verticals := (m.items.foldl (itemFoldStep env) ([], (mint st m.title).2)).1,
                     published := m.workflow_state = S "active", prereq := prereq,
                     require_sequential := m.require_sequential_progress } := by
    simpa [convertModuleToChapter] using hsq
  subst hsq'
  refine ⟨rfl, ?_⟩
  exact itemsFold_components env m.items [] (mint st m.title).2 (by simp)

theorem modulesAvail_nil (st : ConvState) : modulesAvail st [] = [] := rfl

theorem modulesFold_spec (env : ConvEnv) (prereqMap : List (Option Str × Str))
    (ms : List Canvas.Module) (cs0 : List ChapterIR) (st : ConvState) (A : List Str)
    (hN : ((A ++ cs0.flatMap ChapterIR.mintedUrls) ++ modulesAvail st ms).Nodup)
    (hmem : ∀ u ∈ (A ++ cs0.flatMap ChapterIR.mintedUrls) ++ modulesAvail st ms,
      u ∈ st.used) :
    (ms.foldl (moduleFoldStep env prereqMap) (cs0, st)).2.itemIdMap = st.itemIdMap ∧
    (∃ d, (ms.foldl (moduleFoldStep env prereqMap) (cs0, st)).2.used = d ++ st.used) ∧
    (A ++ (ms.foldl (moduleFoldStep env prereqMap) (cs0, st)).1.flatMap
      ChapterIR.mintedUrls).Nodup ∧
    (∀ u ∈ A ++ (ms.foldl (moduleFoldStep env prereqMap) (cs0, st)).1.flatMap
      ChapterIR.mintedUrls, u ∈ (ms.foldl (moduleFoldStep env prereqMap) (cs0, st)).2.used) := by
  induction ms generalizing cs0 st with
  | nil =>
    exact ⟨rfl, ⟨[], rfl⟩, by simpa [modulesAvail_nil] using hN,
      fun u hu => hmem u (by simp only [modulesAvail_nil, List.append_nil]; exact hu)⟩
  | cons m ms ih =>
    have hN1 : ((A ++ cs0.flatMap ChapterIR.mintedUrls)
        ++ (itemsAvail st m.items ++ modulesAvail st ms)).Nodup := by
      have h := hN
      rw [modulesAvail_cons] at h
      exact h
    have hmem1 : ∀ u ∈ (A ++ cs0.flatMap ChapterIR.mintedUrls)
        ++ (itemsAvail st m.items ++ modulesAvail st ms), u ∈ st.used := by
      intro u hu
      apply hmem
      rw [modulesAvail_cons]
      exact hu
    obtain ⟨s1, ⟨d1, s2⟩, s3, s4⟩ := convertModuleToChapter_spec env m
      (prereqMap.lookup m.identifier) st (A ++ cs0.flatMap ChapterIR.mintedUrls)
      (modulesAvail st ms) hN1 hmem1
    have hMA : modulesAvail (convertModuleToChapter env m (prereqMap.lookup m.identifier) st).2 ms
        = modulesAvail st ms :=
      modulesAvail_congr st _ ms s1
    have hflat : (cs0 ++ [(convertModuleToChapter env m (prereqMap.lookup m.identifier) st).1]).flatMap
        ChapterIR.mintedUrls
        = cs0.flatMap ChapterIR.mintedUrls
          ++ (convertModuleToChapter env m (prereqMap.lookup m.identifier) st).1.mintedUrls := by
      simp
    have hN2 : ((A ++ (cs0 ++ [(convertModuleToChapter env m (prereqMap.lookup m.identifier) st).1]).flatMap
        ChapterIR.mintedUrls)
        ++ modulesAvail (convertModuleToChapter env m (prereqMap.lookup m.identifier) st).2 ms).Nodup := by
      rw [hflat, hMA]
      simp only [List.append_assoc] at s3 ⊢
      exact s3
    have hmem2 : ∀ u ∈ (A ++ (cs0 ++ [(convertModuleToChapter env m (prereqMap.lookup m.identifier) st).1]).flatMap
        ChapterIR.mintedUrls)
        ++ modulesAvail (convertModuleToChapter env m (prereqMap.lookup m.identifier) st).2 ms,
        u ∈ (convertModuleToChapter env m (prereqMap.lookup m.identifier) st).2.used := by
      intro u hu
      apply s4
      rw [hflat, hMA] at hu
      simp only [List.append_assoc] at hu ⊢
      exact hu
    obtain ⟨I1, ⟨d2, I2⟩, I3, I4⟩ :=
      ih (cs0 ++ [(convertModuleToChapter env m (prereqMap.lookup m.identifier) st).1])
        (convertModuleToChapter env m (prereqMap.lookup m.identifier) st).2 hN2 hmem2
    have hre : (m :: ms).foldl (moduleFoldStep env prereqMap) (cs0, st)
        = ms.foldl (moduleFoldStep env prereqMap)
            (cs0 ++ [(convertModuleToChapter env m (prereqMap.lookup m.identifier) st).1],
             (convertModuleToChapter env m (prereqMap.lookup m.identifier) st).2) := rfl
    rw [hre]
    refine ⟨I1.trans s1, ⟨d2 ++ d1, ?_⟩, I3, I4⟩
    rw [I2, s2, List.append_assoc]

theorem buildIdentifierMapItem_spec (st : ConvState) (it : Item)
    (h1 : (st.itemIdMap.map Prod.snd).Nodup)
    (h2 : ∀ p ∈ st.itemIdMap, p.2 ∈ st.used) :
    ((buildIdentifierMapItem st it).itemIdMap.map Prod.snd).Nodup ∧
    (∀ p ∈ (buildIdentifierMapItem st it).itemIdMap,
      p.2 ∈ (buildIdentifierMapItem st it).used) ∧
    (∀ u ∈ st.used, u ∈ (buildIdentifierMapItem st it).used) := by
  obtain ⟨hfresh, hused, -, -, -, -⟩ := mint_spec st it.title
  simp only [buildIdentifierMapItem]
  split
  · split
    · rename_i iid hiid
      refine ⟨?_, ?_, ?_⟩
      · refine List.nodup_cons.mpr ⟨?_, h1⟩
        intro hmemm
        rcases List.mem_map.1 hmemm with ⟨p, hp, hpe⟩
        have hpu := h2 p hp
        rw [hpe] at hpu
        exact hfresh hpu
      · intro p hp
        rcases List.mem_cons.1 hp with h | h
        · subst h
          rw [hused]
          exact List.mem_cons_self _ _
        · rw [hused]
          exact List.mem_cons_of_mem _ (h2 p h)
      · intro u hu
        rw [hused]
        exact List.mem_cons_of_mem _ hu
    · refine ⟨h1, ?_, ?_⟩
      · intro p hp
        rw [hused]
        exact List.mem_cons_of_mem _ (h2 p hp)
      · intro u hu
        rw [hused]
        exact List.mem_cons_of_mem _ hu
  · exact ⟨h1, h2, fun u hu => hu⟩

theorem buildItemsFold_spec (its : List Item) (st : ConvState)
    (h1 : (st.itemIdMap.map Prod.snd).Nodup)
    (h2 : ∀ p ∈ st.itemIdMap, p.2 ∈ st.used) :
    (((its.foldl buildIdentifierMapItem st).itemIdMap.map Prod.snd)).Nodup ∧
    (∀ p ∈ (its.foldl buildIdentifierMapItem st).itemIdMap,
      p.2 ∈ (its.foldl buildIdentifierMapItem st).used) ∧
    (∀ u ∈ st.used, u ∈ (its.foldl buildIdentifierMapItem st).used) := by
  induction its generalizing st with
  | nil => exact ⟨h1, h2, fun u hu => hu⟩
  | cons it its ih =>
    obtain ⟨s1, s2, s3⟩ := buildIdentifierMapItem_spec st it h1 h2
    obtain ⟨I1, I2, I3⟩ := ih (buildIdentifierMapItem st it) s1 s2
    exact ⟨I1, I2, fun u hu => I3 u (s3 u hu)⟩

theorem buildIdentifierMap_spec (st : ConvState) (ms : List Canvas.Module) :
    ((buildIdentifierMap st ms).itemIdMap.map Prod.snd).Nodup ∧
    (∀ p ∈ (buildIdentifierMap st ms).itemIdMap, p.2 ∈ (buildIdentifierMap st ms).used) := by
  suffices h : ∀ (st0 : ConvState),
      (st0.itemIdMap.map Prod.snd).Nodup →
      (∀ p ∈ st0.itemIdMap, p.2 ∈ st0.used) →
      (((ms.foldl (fun st m => m.items.foldl buildIdentifierMapItem st) st0).itemIdMap.map
        Prod.snd)).Nodup ∧
      (∀ p ∈ (ms.foldl (fun st m => m.items.foldl buildIdentifierMapItem st) st0).itemIdMap,
        p.2 ∈ (ms.foldl (fun st m => m.items.foldl buildIdentifierMapItem st) st0).used) by
    exact h { st with identifierMap := [], itemIdMap := [] } (by simp) (by simp)
  intro st0 h1 h2
  induction ms generalizing st0 with
  | nil => exact ⟨h1, h2⟩
  | cons m ms ih =>
    obtain ⟨s1, s2, -⟩ := buildItemsFold_spec m.items st0 h1 h2
    exact ih _ s1 s2

theorem prereqStepFold_spec (ms : List Canvas.Module)
    (q : List (Option Str × Str) × ConvState) :
    (ms.foldl
      (fun p m =>
        let (u, st) := mint p.2 m.title
        (p.1 ++ [(m.identifier, u)], st)) q).2.itemIdMap = q.2.itemIdMap ∧
    (∀ u ∈ q.2.used, u ∈ (ms.foldl
      (fun p m =>
        let (u, st) := mint p.2 m.title
        (p.1 ++ [(m.identifier, u)], st)) q).2.used) := by
  induction ms generalizing q with
  | nil => exact ⟨rfl, fun u hu => hu⟩
  | cons m ms ih =>
    obtain ⟨-, hused, hmap, -, -, -⟩ := mint_spec q.2 m.title
    obtain ⟨I1, I2⟩ := ih (q.1 ++ [(m.identifier, (mint q.2 m.title).1)], (mint q.2 m.title).2)
    refine ⟨I1.trans hmap, ?_⟩
    intro u hu
    apply I2
    rw [hused]
    exact List.mem_cons_of_mem _ hu

theorem buildPrerequisiteMap_spec (st : ConvState) (ms : List Canvas.Module) :
    (buildPrerequisiteMap st ms).2.itemIdMap = st.itemIdMap ∧
    (∀ u ∈ st.used, u ∈ (buildPrerequisiteMap st ms).2.used) := by
  obtain ⟨h1, h2⟩ := prereqStepFold_spec ms ([], st)
  exact ⟨h1, h2⟩

theorem itemsAvail_eq (st : ConvState) (its : List Item) :
    itemsAvail st its
      = (its.filterMap Item.truthyId).filterMap (fun iid => st.itemIdMap.lookup iid) := by
  rw [List.filterMap_filterMap]
  rfl

theorem modulesAvail_eq (st : ConvState) (ms : List Canvas.Module) :
    modulesAvail st ms
      = (truthyItemIds ms).filterMap (fun iid => st.itemIdMap.lookup iid) := by
  induction ms with
  | nil => rfl
  | cons m ms ih =>
    have ht : truthyItemIds (m :: ms)
        = m.items.filterMap Item.truthyId ++ truthyItemIds ms := by
      simp [truthyItemIds]
    rw [modulesAvail_cons, ih, itemsAvail_eq, ht, List.filterMap_append]

theorem modulesAvail_nodup (st : ConvState) (ms : List Canvas.Module)
    (hsnd : (st.itemIdMap.map Prod.snd).Nodup)
    (hids : (truthyItemIds ms).Nodup) :
    (modulesAvail st ms).Nodup := by
  rw [modulesAvail_eq]
  refine hids.filterMap ?_
  intro a a' b hb hb'
  have m1 := lookup_mem (Option.mem_def.1 hb)
  have m2 := lookup_mem (Option.mem_def.1 hb')
  have heq := List.inj_on_of_nodup_map hsnd m1 m2 rfl
  exact (Prod.ext_iff.1 heq).1

theorem modulesAvail_mem (st : ConvState) (ms : List Canvas.Module)
    (h2 : ∀ p ∈ st.itemIdMap, p.2 ∈ st.used) :
    ∀ u ∈ modulesAvail st ms, u ∈ st.used := by
  intro u hu
  rw [modulesAvail_eq] at hu
  obtain ⟨iid, -, hlk⟩ := List.mem_filterMap.1 hu
  exact h2 _ (lookup_mem hlk)

theorem createImportNotesChapter_minted (st : ConvState) :
    (createImportNotesChapter st).1.mintedUrls
      = [(mint st (S "import_notes")).1,
         (mint (mint (mint st (S "import_notes")).2 (S "unsupported_content")).2
           (S "manual_review")).1,
         (mint (mint (mint (mint st (S "import_notes")).2 (S "unsupported_content")).2
           (S "manual_review")).2 (S "unsupported_report")).1] := by
  simp [createImportNotesChapter, ChapterIR.mintedUrls, VerticalIR.mintedUrls]

theorem createImportNotesChapter_spec (st : ConvState) (A : List Str)
    (hN : A.Nodup) (hmem : ∀ u ∈ A, u ∈ st.used) :
    (A ++ (createImportNotesChapter st).1.mintedUrls).Nodup := by
  obtain ⟨f1, u1, -, -, -, -⟩ := mint_spec st (S "import_notes")
  obtain ⟨f2, u2, -, -, -, -⟩ :=
    mint_spec (mint st (S "import_notes")).2 (S "unsupported_content")
  obtain ⟨f3, u3, -, -, -, -⟩ :=
    mint_spec (mint (mint st (S "import_notes")).2 (S "unsupported_content")).2
      (S "manual_review")
  obtain ⟨f4, u4, -, -, -, -⟩ :=
    mint_spec (mint (mint (mint st (S "import_notes")).2 (S "unsupported_content")).2
      (S "manual_review")).2 (S "unsupported_report")
  have sub1 : ∀ u ∈ st.used, u ∈ (mint st (S "import_notes")).2.used := by
    intro u hu
    rw [u1]
    exact List.mem_cons_of_mem _ hu
  have sub2 : ∀ u ∈ (mint st (S "import_notes")).2.used,
      u ∈ (mint (mint st (S "import_notes")).2 (S "unsupported_content")).2.used := by
    intro u hu
    rw [u2]
    exact List.mem_cons_of_mem _ hu
  have sub3 : ∀ u ∈ (mint (mint st (S "import_notes")).2 (S "unsupported_content")).2.used,
      u ∈ (mint (mint (mint st (S "import_notes")).2 (S "unsupported_content")).2
        (S "manual_review")).2.used := by
    intro u hu
    rw [u3]
    exact List.mem_cons_of_mem _ hu
  have hc2 : (mint st (S "import_notes")).1
      ∈ (mint (mint st (S "import_notes")).2 (S "unsupported_content")).2.used := by
    refine sub2 _ ?_
    rw [u1]
    exact List.mem_cons_self _ _
  have hv3 : (mint (mint (mint st (S "import_notes")).2 (S "unsupported_content")).2
      (S "manual_review")).1
      ∈ (mint (mint (mint st (S "import_notes")).2 (S "unsupported_content")).2
        (S "manual_review")).2.used := by
    rw [u3]
    exact List.mem_cons_self _ _
  rw [createImportNotesChapter_minted]
  refine List.nodup_append.2 ⟨hN, ?_, ?_⟩
  · refine List.nodup_cons.mpr ⟨?_, List.nodup_cons.mpr ⟨?_, List.nodup_singleton _⟩⟩
    · intro hmemc
      rcases List.mem_cons.1 hmemc with h | h
      · exact f3 (h ▸ hc2)
      · have : (mint st (S "import_notes")).1
            = (mint (mint (mint (mint st (S "import_notes")).2 (S "unsupported_content")).2
              (S "manual_review")).2 (S "unsupported_report")).1 := by simpa using h
        exact f4 (this ▸ sub3 _ hc2)
    · intro hmemv
      have : (mint (mint (mint st (S "import_notes")).2 (S "unsupported_content")).2
          (S "manual_review")).1
          = (mint (mint (mint (mint st (S "import_notes")).2 (S "unsupported_content")).2
            (S "manual_review")).2 (S "unsupported_report")).1 := by simpa using hmemv
      exact f4 (this ▸ hv3)
  · intro a haA hain
    have haSt := hmem a haA
    rcases List.mem_cons.1 hain with h | h
    · exact f1 (h ▸ haSt)
    rcases List.mem_cons.1 h with h' | h'
    · exact f3 (h' ▸ sub2 _ (sub1 _ haSt))
    · have : a = (mint (mint (mint (mint st (S "import_notes")).2 (S "unsupported_content")).2
        (S "manual_review")).2 (S "unsupported_report")).1 := by simpa using h'
      exact f4 (this ▸ sub3 _ (sub2 _ (sub1 _ haSt)))

theorem createImportNotesChapter_components (st : ConvState) :
    ∀ sq ∈ (createImportNotesChapter st).1.sequentials, ∀ vv ∈ sq.verticals,
      vv.components ≠ [] := by
  intro sq hsq vv hv
  simp only [createImportNotesChapter] at hsq
  have hsq' := List.mem_singleton.1 hsq
  subst hsq'
  have hv' := List.mem_singleton.1 hv
  subst hv'
  simp

theorem convert_chapters_cases (env : ConvEnv) (data : CourseData) :
    (CanvasToIRConverter.convert env data ConvState.init).1.chapters
      = (data.modules.foldl
          (moduleFoldStep env
            (buildPrerequisiteMap (buildIdentifierMap ConvState.init data.modules) data.modules).1)
          ([], (buildPrerequisiteMap (buildIdentifierMap ConvState.init data.modules) data.modules).2)).1
    ∨ (CanvasToIRConverter.convert env data ConvState.init).1.chapters
      = (data.modules.foldl
          (moduleFoldStep env
            (buildPrerequisiteMap (buildIdentifierMap ConvState.init data.modules) data.modules).1)
          ([], (buildPrerequisiteMap (buildIdentifierMap ConvState.init data.modules) data.modules).2)).1
        ++ [(createImportNotesChapter
            (data.modules.foldl
              (moduleFoldStep env
                (buildPrerequisiteMap (buildIdentifierMap ConvState.init data.modules) data.modules).1)
              ([], (buildPrerequisiteMap (buildIdentifierMap ConvState.init data.modules)
                data.modules).2)).2).1] := by
  simp only [CanvasToIRConverter.convert]
  split
  · exact Or.inr rfl
  · exact Or.inl rfl

theorem modulesFold_components (env : ConvEnv) (prereqMap : List (Option Str × Str))
    (ms : List Canvas.Module) (cs0 : List ChapterIR) (st : ConvState)
    (h0 : ∀ ch ∈ cs0, ∀ sq ∈ ch.sequentials, ∀ v ∈ sq.verticals, v.components ≠ []) :
    ∀ ch ∈ (ms.foldl (moduleFoldStep env prereqMap) (cs0, st)).1, ∀ sq ∈ ch.sequentials,
      ∀ v ∈ sq.verticals, v.components ≠ [] := by
  induction ms generalizing cs0 st with
  | nil => exact h0
  | cons m ms ih =>
    apply ih
    intro ch hch
    rcases List.mem_append.1 hch with h | h
    · exact h0 ch h
    · have hche : ch = (convertModuleToChapter env m (prereqMap.lookup m.identifier) st).1 := by
        simpa using h
      subst hche
      intro sq hsq v hv
      exact (convertModuleToChapter_seq env m (prereqMap.lookup m.identifier) st sq hsq).2 v hv

theorem modulesFold_seq_derived (env : ConvEnv) (prereqMap : List (Option Str × Str))
    (ms : List Canvas.Module) (cs0 : List ChapterIR) (st : ConvState)
    (h0 : ∀ ch ∈ cs0, ∀ sq ∈ ch.sequentials, sq.url_name = ch.url_name ++ S "_content") :
    ∀ ch ∈ (ms.foldl (moduleFoldStep env prereqMap) (cs0, st)).1, ∀ sq ∈ ch.sequentials,
      sq.url_name = ch.url_name ++ S "_content" := by
  induction ms generalizing cs0 st with
  | nil => exact h0
  | cons m ms ih =>
    apply ih
    intro ch hch
    rcases List.mem_append.1 hch with h | h
    · exact h0 ch h
    · have hche : ch = (convertModuleToChapter env m (prereqMap.lookup m.identifier) st).1 := by
        simpa using h
      subst hche
      intro sq hsq
      exact (convertModuleToChapter_seq env m (prereqMap.lookup m.identifier) st sq hsq).1

theorem convert_minted_nodup (env : ConvEnv) (data : CourseData)
    (hids : (truthyItemIds data.modules).Nodup) :
    (CanvasToIRConverter.convert env data ConvState.init).1.mintedUrls.Nodup := by
  obtain ⟨hsnd, hmm⟩ := buildIdentifierMap_spec ConvState.init data.modules
  obtain ⟨hbp1, hbp2⟩ :=
    buildPrerequisiteMap_spec (buildIdentifierMap ConvState.init data.modules) data.modules
  have hsnd2 : ((buildPrerequisiteMap (buildIdentifierMap ConvState.init data.modules)
      data.modules).2.itemIdMap.map Prod.snd).Nodup := by
    rw [hbp1]
    exact hsnd
  have hmm2 : ∀ p ∈ (buildPrerequisiteMap (buildIdentifierMap ConvState.init data.modules)
      data.modules).2.itemIdMap,
      p.2 ∈ (buildPrerequisiteMap (buildIdentifierMap ConvState.init data.modules)
        data.modules).2.used := by
    intro p hp
    rw [hbp1] at hp
    exact hbp2 _ (hmm p hp)
  have hNA : (modulesAvail (buildPrerequisiteMap (buildIdentifierMap ConvState.init data.modules)
      data.modules).2 data.modules).Nodup :=
    modulesAvail_nodup _ _ hsnd2 hids
  have hmemA : ∀ u ∈ modulesAvail (buildPrerequisiteMap
      (buildIdentifierMap ConvState.init data.modules) data.modules).2 data.modules,
      u ∈ (buildPrerequisiteMap (buildIdentifierMap ConvState.init data.modules)
        data.modules).2.used :=
    modulesAvail_mem _ _ hmm2
  obtain ⟨-, -, I3, I4⟩ := modulesFold_spec env
    (buildPrerequisiteMap (buildIdentifierMap ConvState.init data.modules) data.modules).1
    data.modules []
    (buildPrerequisiteMap (buildIdentifierMap ConvState.init data.modules) data.modules).2
    [] hNA hmemA
  have hmu : (CanvasToIRConverter.convert env data ConvState.init).1.mintedUrls
      = (CanvasToIRConverter.convert env data ConvState.init).1.chapters.flatMap
          ChapterIR.mintedUrls := rfl
  rcases convert_chapters_cases env data with hc | hc
  · rw [hmu, hc]
    simpa using I3
  · rw [hmu, hc]
    have hspec := createImportNotesChapter_spec
      (data.modules.foldl
        (moduleFoldStep env
          (buildPrerequisiteMap (buildIdentifierMap ConvState.init data.modules) data.modules).1)
        ([], (buildPrerequisiteMap (buildIdentifierMap ConvState.init data.modules)
          data.modules).2)).2
      ((data.modules.foldl
        (moduleFoldStep env
          (buildPrerequisiteMap (buildIdentifierMap ConvState.init data.modules) data.modules).1)
        ([], (buildPrerequisiteMap (buildIdentifierMap ConvState.init data.modules)
          data.modules).2)).1.flatMap ChapterIR.mintedUrls)
      (by simpa using I3) (fun u hu => I4 u (by simpa using hu))
    rw [List.flatMap_append]
    simpa using hspec

/-- C2: Within one conversion run, provided the (truthy) item identifiers of the
course are pairwise distinct, all generator-minted identifiers (chapters, units
and components, plus the Import Notes subtree) are pairwise distinct, and the
token minted for an item in the upfront identifier-map pass is exactly the token
the item's unit later carries.  However, a sequence's identifier is not obtained
from the generator: it is derived as the chapter token with `_content` appended
(`canvas_to_ir.py` line 214), so it is never registered and can collide with a
minted unit identifier (see `C2_counterexample`). -/
theorem C2_identifier_uniqueness (env : ConvEnv) (data : CourseData)
    (hids : (truthyItemIds data.modules).Nodup) :
    (runPipeline env data).1.mintedUrls.Nodup ∧
    (∀ m pr st, ∀ sq ∈ (convertModuleToChapter env m pr st).1.sequentials,
      sq.url_name = (convertModuleToChapter env m pr st).1.url_name ++ S "_content") ∧
    (∀ (st : ConvState) (it : Item) (iid u : Str), it.truthyId = some iid →
      st.itemIdMap.lookup iid = some u → (itemVertUrl st it).1 = u) := by
  refine ⟨convert_minted_nodup env data hids, ?_, ?_⟩
  · intro m pr st sq hsq
    exact (convertModuleToChapter_seq env m pr st sq hsq).1
  · intro st it iid u h1 h2
    simp only [itemVertUrl, h1, h2]

/-- C2 counterexample: one module titled `m` holding a single wiki page titled
`m 1 content`.  The upfront identifier map names the unit `m_1_content`; the
prerequisite pass takes `m`, the chapter becomes `m_1`, and its sequential is
derived as `m_1_content` — equal to the unit's identifier, so the identifiers
of all nodes below Course are not pairwise distinct (while the minted ones
alone are). -/
theorem C2_counterexample :
    ¬ (runPipeline c2Env c2Data).1.allUrls.Nodup
    ∧ (runPipeline c2Env c2Data).1.mintedUrls.Nodup := by
  constructor
  · decide
  · decide

theorem C2_witness :
    (truthyItemIds c2Data.modules).Nodup ∧ (runPipeline c2Env c2Data).1.mintedUrls.Nodup :=
  ⟨by decide, (C2_identifier_uniqueness c2Env c2Data (by decide)).1⟩

/-- C3: every vertical in the converted course tree carries at least one
component: `_convert_item_to_vertical` returns `None` instead of an empty
vertical (`canvas_to_ir.py` line 322), `_convert_module_to_chapter` attaches
only the verticals actually returned (lines 221–228), and the Import Notes
vertical always holds the report component. -/
theorem C3_no_empty_verticals (env : ConvEnv) (data : CourseData) :
    ∀ ch ∈ (runPipeline env data).1.chapters, ∀ sq ∈ ch.sequentials,
      ∀ v ∈ sq.verticals, v.components ≠ [] := by
  intro ch hch
  have hch' : ch ∈ (CanvasToIRConverter.convert env data ConvState.init).1.chapters := hch
  rcases convert_chapters_cases env data with hc | hc
  · rw [hc] at hch'
    exact modulesFold_components env _ data.modules [] _ (by simp) ch hch'
  · rw [hc] at hch'
    rcases List.mem_append.1 hch' with h | h
    · exact modulesFold_components env _ data.modules [] _ (by simp) ch h
    · have hche := List.mem_singleton.1 h
      subst hche
      exact createImportNotesChapter_components _

theorem C3_witness :
    ((runPipeline c2Env c2Data).1.chapters.headI.sequentials.headI.verticals.headI).components
      ≠ [] :=
  C3_no_empty_verticals c2Env c2Data
    (runPipeline c2Env c2Data).1.chapters.headI (by decide)
    (runPipeline c2Env c2Data).1.chapters.headI.sequentials.headI (by decide)
    (runPipeline c2Env c2Data).1.chapters.headI.sequentials.headI.verticals.headI (by decide)

/-- C8: the pipeline is a pure function of the archive contents: every
invocation starts from the fresh converter state (`converter.py` line 158
constructs a new `CanvasToOpenEdXConverter`, whose `__init__` builds a
`CanvasToIRConverter` with an empty registry, ledger and maps,
`canvas_to_ir.py` lines 25–35), so two runs on the same input produce
identical identifiers (all of them, minted or derived) and an identical
skipped-item ledger, entry order included.  In this embedding `runPipeline`
applies the converter to `ConvState.init`, and the equality of the two runs
is definitional. -/
theorem C8_two_runs_identical (env : ConvEnv) (data : CourseData) :
    (runPipeline env data).1.allUrls = (runPipeline env data).1.allUrls ∧
    (runPipeline env data).1.mintedUrls = (runPipeline env data).1.mintedUrls ∧
    (runPipeline env data).2.skipped = (runPipeline env data).2.skipped :=
  ⟨rfl, rfl, rfl⟩
